import Mathlib

/-!
Shallow embedding of the Brisk backend game engine
(src/backend/src/gameManager.ts, src/backend/src/types.ts).

Randomness in the source (Math.random: the Fisher-Yates shuffle of the deck,
the random card drawn by the turn timer and by the AI turn) is modelled by
explicit parameters; wall-clock time (Date.now) by explicit millisecond
parameters `now : Nat`.  The turn timestamps and the speed preset (which only
feed the real-time timer duration), the chat persistence and the socket
bookkeeping are not observable by any claim and are omitted from the state.
Fallible operations return `Except`; a thrown JS error corresponds to
`.error` and performs no mutation (in the source every `throw` happens
before any mutation of the session).
-/

namespace Brisk

/-- Suit: the four suits of types.ts, `a | b | c | d`. -/
inductive Suit where
  | a
  | b
  | c
  | d
deriving DecidableEq

/-- Card of types.ts: a number (1-10 in real decks) and a suit; equality is
componentwise, matching the `c.number === card.number && c.suit === card.suit`
comparisons in gameManager.ts. -/
structure Card where
  number : Nat
  suit : Suit
deriving DecidableEq

/-- Player of types.ts.  The optional `hand` and `wonCards` arrays are
modelled as `Option (List Card)` (`none` is JS `undefined`). -/
structure Player where
  id : String
  name : String
  isHost : Bool
  isAI : Bool
  score : Nat
  hand : Option (List Card) := none
  wonCards : Option (List Card) := none
deriving DecidableEq

/-- ChatMessage of types.ts. -/
structure ChatMessage where
  id : String
  playerId : String
  playerName : String
  message : String
  timestamp : Nat
deriving DecidableEq

/-- The phase union type `'lobby' | 'playing' | 'ended'` of types.ts. -/
inductive GamePhase where
  | lobby
  | playing
  | ended
deriving DecidableEq

/-- One entry of `gameState.playedCards`: `{ playerId, card }`. -/
structure PlayedCard where
  playerId : String
  card : Card
deriving DecidableEq

/-- GameState of types.ts (fields that no claim observes are omitted, see the
file header). -/
structure GameState where
  id : String
  lobbyCode : String
  players : List Player
  currentPlayerIndex : Nat
  gamePhase : GamePhase
  maxPlayers : Nat
  chat : List ChatMessage
  winner : Option Player := none
  currentRound : Nat
  deck : Option (List Card) := none
  playedCards : Option (List PlayedCard) := none
  lastPlayedCards : Option (List PlayedCard) := none
  lastCard : Option Card := none
  lastRoundWinner : Option String := none
deriving DecidableEq

/-- GameManager.createLobby: a fresh session in the lobby phase whose single
player is the human host.  The generated uuids and lobby code are parameters. -/
def createLobby (playerName gameId lobbyCode playerId : String) : GameState :=
  { id := gameId
    lobbyCode := lobbyCode
    players := [{ id := playerId, name := playerName, isHost := true, isAI := false, score := 0 }]
    currentPlayerIndex := 0
    gamePhase := .lobby
    maxPlayers := 5
    chat := []
    currentRound := 1 }

/-- getCardValue from gameManager.ts playCard (also re-exported conceptually
to ai.ts): 3 -> 10, 1 -> 11, 8 -> 2, 9 -> 3, 10 -> 4, otherwise 0. -/
def getCardValue (card : Card) : Nat :=
  if card.number = 3 then 10
  else if card.number = 1 then 11
  else if card.number = 8 then 2
  else if card.number = 9 then 3
  else if card.number = 10 then 4
  else 0

/-- The score recomputation `wonCards.reduce((sum, card) => sum + getCardValue(card), 0)`. -/
def sumValues (cards : List Card) : Nat :=
  cards.foldl (fun sum card => sum + getCardValue card) 0

/-- Dominant-suit computation in playCard: filter the played cards whose suit
equals the briscola (trump) suit; if any exist the dominant suit is the trump
suit, otherwise the suit of the first played card.  `briscolaSuit` is
`gameState.lastCard?.suit`, hence an `Option`. -/
def dominantSuit (briscolaSuit : Option Suit) (played : List PlayedCard) : Option Suit :=
  let briscolaCards := played.filter (fun pc => decide (some pc.card.suit = briscolaSuit))
  if briscolaCards.length > 0 then briscolaSuit
  else played.head?.map (fun pc => pc.card.suit)

/-- One iteration of the winner-finding loop of playCard on the running
state (winner?, maxValue, maxNumber): update when
`value > maxValue || (value === maxValue && value === 0 && pc.card.number > maxNumber)`. -/
def winnerStep (acc : Option PlayedCard × Int × Int) (pc : PlayedCard) :
    Option PlayedCard × Int × Int :=
  if (getCardValue pc.card : Int) > acc.2.1 ∨
     ((getCardValue pc.card : Int) = acc.2.1 ∧ (getCardValue pc.card : Int) = 0 ∧
      (pc.card.number : Int) > acc.2.2)
  then (some pc, (getCardValue pc.card : Int), (pc.card.number : Int))
  else acc

/-- The winner-finding fold of playCard, verbatim: running maximum with the
`-1` sentinels for `maxValue` and `maxNumber` (hence `Int`), with winnerStep
applied to the cards of the dominant suit only. -/
def pickWinner (dom : Option Suit) (played : List PlayedCard) : Option PlayedCard :=
  (played.foldl
    (fun acc pc => if some pc.card.suit = dom then winnerStep acc pc else acc)
    ((none : Option PlayedCard), (-1 : Int), (-1 : Int))).1

/-- In-place mutation of the first array element matching a predicate
(JS `find` returns the object which is then mutated). -/
def updateFirstBy (players : List Player) (pred : Player → Bool) (f : Player → Player) :
    List Player :=
  match players with
  | [] => []
  | p :: rest => if pred p then f p :: rest else p :: updateFirstBy rest pred f

/-- Mutation of the first player found by id. -/
def updateFirst (players : List Player) (pid : String) (f : Player → Player) : List Player :=
  updateFirstBy players (fun p => decide (p.id = pid)) f

/-- The trick-collection block of playCard: the winner (when defined) gains
every played card in `wonCards` and their score is recomputed from scratch as
the value sum of all their won cards. -/
def collectTrick (players : List Player) (played : List PlayedCard)
    (winner : Option PlayedCard) : List Player :=
  match winner with
  | none => players
  | some w =>
    updateFirst players w.playerId (fun p =>
      let won := p.wonCards.getD [] ++ played.map (fun pc => pc.card)
      { p with wonCards := some won, score := sumValues won })

/-- The per-player refill loop `while (hand.length < 3 && deck.length > 0)
hand.push(deck.pop())`, unrolled with fuel 3: since each iteration grows the
hand by one and the guard stops at 3 cards, 3 iterations always suffice. -/
def refillLoop : Nat → List Card → List Card → List Card × List Card
  | 0, hand, deck => (hand, deck)
  | fuel + 1, hand, deck =>
    if hand.length < 3 then
      match deck.getLast? with
      | none => (hand, deck)
      | some c => refillLoop fuel (hand ++ [c]) deck.dropLast
    else (hand, deck)

/-- Refill a single hand up to 3 cards from the tail of the deck. -/
def refillOne (hand deck : List Card) : List Card × List Card :=
  refillLoop 3 hand deck

/-- The refill block of playCard: `for (const player of gameState.players)`
refills each player in array order (seat order from index 0).  The TS code
reads `player.hand!`; in every reachable playing-phase state hands are
defined, and we render the non-null assertion as `getD []`. -/
def refillPlayers : List Player → List Card → List Player × List Card
  | [], deck => ([], deck)
  | p :: rest, deck =>
    let r := refillOne (p.hand.getD []) deck
    let rr := refillPlayers rest r.2
    ({ p with hand := some r.1 } :: rr.1, rr.2)

/-- JS `array.splice(i, 1)`: the removed element (if any) and the array
without it. -/
def spliceOne (l : List Card) (i : Nat) : Option Card × List Card :=
  (l[i]?, l.eraseIdx i)

inductive PlayErr where
  | notInProgress
  | playerNotFound
  | cardNotInHand
deriving DecidableEq

/-- GameManager.playCard.  Validations (phase, player lookup, card-in-hand)
happen before any mutation; note that no check compares `pid` with the player
at `currentPlayerIndex`.  On a completed trick (played count = player count)
the trick resolves: dominant suit, winner fold, collection and score
recomputation, seat-order refill, next-round bookkeeping and the game-end
check. -/
def playCard (gs : GameState) (pid : String) (card : Card) : Except PlayErr GameState :=
  if gs.gamePhase ≠ .playing then .error .notInProgress else
  match gs.players.find? (fun p => decide (p.id = pid)) with
  | none => .error .playerNotFound
  | some player =>
    match player.hand with
    | none => .error .playerNotFound
    | some hand =>
      match hand.findIdx? (fun c => decide (c.number = card.number ∧ c.suit = card.suit)) with
      | none => .error .cardNotInHand
      | some cardIndex =>
        match spliceOne hand cardIndex with
        | (none, _) => .error .cardNotInHand
        | (some playedCard, newHand) =>
          let players1 := updateFirst gs.players pid (fun p => { p with hand := some newHand })
          let played := gs.playedCards.getD [] ++ [⟨pid, playedCard⟩]
          let gs1 := { gs with
            players := players1
            playedCards := some played
            currentPlayerIndex := (gs.currentPlayerIndex + 1) % players1.length }
          if played.length = players1.length then
            let briscolaSuit : Option Suit := gs.lastCard.map (fun c => c.suit)
            let dom : Option Suit := dominantSuit briscolaSuit played
            let trickWinner : Option PlayedCard := pickWinner dom played
            let gs2 : GameState := { gs1 with
              lastRoundWinner := trickWinner.map (fun w => w.playerId)
              lastPlayedCards := some played }
            let players2 : List Player := collectTrick gs2.players played trickWinner
            let refill : List Player × Option (List Card) :=
              match gs.deck with
              | none => (players2, (none : Option (List Card)))
              | some d =>
                if d.length > 0 then
                  let r := refillPlayers players2 d
                  (r.1, some r.2)
                else (players2, some d)
            let players3 := refill.1
            let cpi :=
              match gs2.lastRoundWinner with
              | some wid =>
                -- the JS truthiness test `if (gameState.lastRoundWinner)` is
                -- false for the empty string
                if wid = "" then 0
                else
                  match players3.findIdx? (fun p => decide (p.id = wid)) with
                  | some winnerIndex => winnerIndex
                  | none => 0
              | none => 0
            let gs3 := { gs2 with
              players := players3
              deck := refill.2
              playedCards := some []
              currentRound := gs2.currentRound + 1
              currentPlayerIndex := cpi }
            let allEmpty := gs3.players.any (fun p => decide (p.hand.getD [] = []))
            if allEmpty then
              let w : Option Player := gs3.players.foldl
                (fun acc p =>
                  match acc with
                  | none => some p
                  | some wp => if p.score > wp.score then some p else some wp)
                (none : Option Player)
              .ok { gs3 with gamePhase := .ended, winner := w }
            else .ok gs3
          else .ok gs1

/-- GameManager.processAITurn: if the session is playing and the player at
`currentPlayerIndex` is an AI with a non-empty hand, play a uniformly random
card of its hand (`Math.floor(Math.random() * hand.length)` modelled by
`randomIdx % hand.length`).  Errors of the inner playCard are caught and
swallowed. -/
def processAITurn (gs : GameState) (randomIdx : Nat) : Option GameState :=
  if gs.gamePhase ≠ .playing then none
  else
    match gs.players[gs.currentPlayerIndex]? with
    | none => none
    | some currentPlayer =>
      match currentPlayer.hand with
      | none => none
      | some h =>
        if currentPlayer.isAI ∧ h ≠ [] then
          match h[randomIdx % h.length]? with
          | none => none
          | some card =>
            match playCard gs currentPlayer.id card with
            | .ok gs' => some gs'
            | .error _ => none
        else none

/-- The body of the `setTimeout` callback armed by setTurnTimeout: re-read the
session, return if it is no longer playing or the player now at
`currentPlayerIndex` has no cards, otherwise auto-play a random card of that
player's current hand (playCard errors are caught).  The callback closes only
over the lobby code: it has no memory of which player the timer was armed
for.  `none` means no state change. -/
def timerFire (gs : GameState) (randomIdx : Nat) : Option GameState :=
  if gs.gamePhase ≠ .playing then none
  else
    match gs.players[gs.currentPlayerIndex]? with
    | none => none
    | some player =>
      match player.hand with
      | none => none
      | some h =>
        if h = [] then none
        else
          match h[randomIdx % h.length]? with
          | none => none
          | some card =>
            match playCard gs player.id card with
            | .ok gs' => some gs'
            | .error _ => none

inductive TimerDecision where
  | noTimer
  | aiImmediate
  | armHuman
deriving DecidableEq

/-- The control decision of GameManager.setTurnTimeout: do nothing when not
playing or the current player has no cards; play synchronously (no timer)
when the current player is an AI; otherwise arm the single-shot timer. -/
def setTurnTimeoutDecision (gs : GameState) : TimerDecision :=
  if gs.gamePhase ≠ .playing then .noTimer
  else
    match gs.players[gs.currentPlayerIndex]? with
    | none => .noTimer
    | some currentPlayer =>
      match currentPlayer.hand with
      | none => .noTimer
      | some h =>
        if h = [] then .noTimer
        else if currentPlayer.isAI then .aiImmediate
        else .armHuman

inductive StartErr where
  | notHost
  | tooFew
  | tooMany
deriving DecidableEq

/-- The deck built by startGame: for each suit a, b, c, d the numbers 1..10
in order (40 cards). -/
def buildDeck : List Card :=
  [Suit.a, Suit.b, Suit.c, Suit.d].flatMap
    (fun suit => (List.range 10).map (fun n => ⟨n + 1, suit⟩))

/-- GameManager.handleSpecialDeckCases: with 3 players, remove the first card
with number 2 (findIndex + splice). -/
def handleSpecialDeckCases (deck : List Card) (numPlayers : Nat) : List Card :=
  if numPlayers = 3 then deck.eraseP (fun c => decide (c.number = 2))
  else deck

/-- Draw n cards by popping the deck's tail (`deck.pop()`), pushing each onto
the hand in pop order; stops early on an empty deck. -/
def drawN : Nat → List Card → List Card × List Card
  | 0, deck => ([], deck)
  | n + 1, deck =>
    match deck.getLast? with
    | none => ([], deck)
    | some c =>
      let r := drawN n deck.dropLast
      (c :: r.1, r.2)

/-- The initial deal of startGame: each player in array order receives 3 cards
popped from the deck tail. -/
def dealHands : List Player → List Card → List Player × List Card
  | [], deck => ([], deck)
  | p :: rest, deck =>
    let d := drawN 3 deck
    let r := dealHands rest d.2
    ({ p with hand := some d.1 } :: r.1, r.2)

/-- The per-player reset loop of startGame: score 0, empty hand and empty
won-cards collection. -/
def resetPlayer (p : Player) : Player :=
  { p with score := 0, hand := some ([] : List Card), wonCards := some ([] : List Card) }

/-- GameManager.startGame.  Guards: the actor must be found and be host, and
the player count must be in [2, 5]; there is no check of the current phase.
The built deck, the 3-player special case and the Fisher-Yates shuffle
(driven by Math.random) are modelled by the `shuffled` parameter, which
theorems constrain to be a permutation of
`handleSpecialDeckCases buildDeck players.length`.  The first array element
of the shuffled deck is revealed as `lastCard` without being removed; hands
are dealt by popping the opposite end. -/
def startGame (gs : GameState) (pid : String) (shuffled : List Card) :
    Except StartErr GameState :=
  match gs.players.find? (fun p => decide (p.id = pid)) with
  | none => .error .notHost
  | some player =>
    if player.isHost = false then .error .notHost
    else if gs.players.length < 2 then .error .tooFew
    else if gs.players.length > 5 then .error .tooMany
    else
      let players0 := gs.players.map resetPlayer
      let lastCard :=
        match shuffled.head? with
        | some c => some c
        | none => gs.lastCard
      let deal := dealHands players0 shuffled
      .ok { gs with
        gamePhase := .playing
        currentPlayerIndex := 0
        currentRound := 1
        players := deal.1
        deck := some deal.2
        lastCard := lastCard
        playedCards := some [] }

inductive JoinErr where
  | kickTimeout (remainingMs : Nat)
  | lobbyFull
  | duplicateName
  | alreadyStarted
deriving DecidableEq

/-- The cleanup pass of joinLobby over the per-lobby kicked map: delete the
entries whose expiry timestamp is strictly in the past. -/
def cleanupKicked (kicked : List (String × Nat)) (now : Nat) : List (String × Nat) :=
  kicked.filter (fun e => decide (¬ e.2 < now))

/-- The blocking scan of joinLobby over the (cleaned) kicked map: skip empty
names and expired entries, and fail with the remaining cooldown when an entry
keyed by the joining name is found. -/
def findKickBlock : List (String × Nat) → String → Nat → Option Nat
  | [], _, _ => none
  | (pid, expiry) :: rest, playerName, now =>
    if playerName = "" ∨ expiry < now then findKickBlock rest playerName now
    else if pid = playerName then some (expiry - now)
    else findKickBlock rest playerName now

/-- JS String.prototype.replace with a string pattern: replace only the first
occurrence (here: delete it). -/
def replaceFirst (s pat : String) : String :=
  match s.splitOn pat with
  | [] => s
  | [_] => s
  | piece :: rest => piece ++ String.intercalate pat rest

/-- GameManager.joinLobby: kicked-cooldown check, capacity check, duplicate
name check, AI reconnect (by the name + "bot" convention, allowed in any
phase), phase check, and finally the append of the new player.  The fresh
uuid of the new player is the `newPlayerId` parameter. -/
def joinLobby (gs : GameState) (kicked : List (String × Nat)) (now : Nat)
    (playerName newPlayerId : String) : Except JoinErr GameState :=
  let kicked1 := cleanupKicked kicked now
  match findKickBlock kicked1 playerName now with
  | some remainingMs => .error (.kickTimeout remainingMs)
  | none =>
    if gs.players.length ≥ gs.maxPlayers then .error .lobbyFull
    else if gs.players.any (fun p => decide (p.name = playerName)) then .error .duplicateName
    else
      match gs.players.find? (fun p => decide (p.name = playerName ++ "bot" ∧ p.isAI = true)) with
      | some _ =>
        let players1 := updateFirstBy gs.players
          (fun p => decide (p.name = playerName ++ "bot" ∧ p.isAI = true))
          (fun p => { p with isAI := false, name := replaceFirst p.name "bot" })
        .ok { gs with players := players1 }
      | none =>
        if gs.gamePhase = .playing then .error .alreadyStarted
        else .ok { gs with players := gs.players ++
          [{ id := newPlayerId, name := playerName, isHost := false, isAI := false, score := 0 }] }

inductive KickErr where
  | notHost
  | playerNotFound
deriving DecidableEq

/-- JS Map.set keyed by kicked player name: overwrite in place, else append. -/
def mapSet (m : List (String × Nat)) (k : String) (v : Nat) : List (String × Nat) :=
  if m.any (fun e => decide (e.1 = k)) then
    m.map (fun e => if e.1 = k then (k, v) else e)
  else m ++ [(k, v)]

/-- GameManager.kickPlayer: host-only; records the target's NAME in the
kicked map with a 30000 ms expiry, removes the target, and decrements
`currentPlayerIndex` when it is at or past the removed index (and positive).
There is no host reassignment and no target ≠ actor check. -/
def kickPlayer (gs : GameState) (kicked : List (String × Nat))
    (hostId targetPlayerId : String) (now : Nat) :
    Except KickErr (GameState × List (String × Nat)) :=
  match gs.players.find? (fun p => decide (p.id = hostId)) with
  | none => .error .notHost
  | some host =>
    if host.isHost = false then .error .notHost
    else
      match gs.players.findIdx? (fun p => decide (p.id = targetPlayerId)) with
      | none => .error .playerNotFound
      | some targetIndex =>
        match gs.players[targetIndex]? with
        | none => .error .playerNotFound
        | some target =>
          let kicked1 := mapSet kicked target.name (now + 30000)
          let players1 := gs.players.eraseIdx targetIndex
          let cpi :=
            if gs.currentPlayerIndex ≥ targetIndex ∧ gs.currentPlayerIndex > 0
            then gs.currentPlayerIndex - 1
            else gs.currentPlayerIndex
          .ok ({ gs with players := players1, currentPlayerIndex := cpi }, kicked1)

/-- The host-reassignment loop of leaveGame: `newHost.isHost = true`, then
every player whose id differs from the new host's is set non-host (player ids
are uuids, assumed unique in the claims that use this). -/
def assignNewHost (players : List Player) (newHostId : String) : List Player :=
  players.map (fun p =>
    if p.id = newHostId then { p with isHost := true } else { p with isHost := false })

/-- GameManager.leaveGame for a player of this session.  During `playing` the
player is converted in place to an AI (name suffixed "bot") and the host role
is handed to the first remaining human; otherwise the player is removed, with
the same host handoff.  The session is deleted (`none`) when no players
remain or all are AI.  A `pid` not present returns the session unchanged. -/
def leaveGame (gs : GameState) (pid : String) : Option GameState :=
  match gs.players.find? (fun p => decide (p.id = pid)) with
  | none => some gs
  | some player =>
    let gs1 :=
      if gs.gamePhase = .playing then
        let players1 := updateFirst gs.players pid
          (fun p => { p with isAI := true, name := p.name ++ "bot" })
        if player.isHost then
          let humanPlayers := players1.filter (fun p => decide (p.isAI = false ∧ p.id ≠ pid))
          match humanPlayers.head? with
          | some newHost => { gs with players := assignNewHost players1 newHost.id }
          | none => { gs with players := players1 }
        else { gs with players := players1 }
      else
        let players1 :=
          match gs.players.findIdx? (fun p => decide (p.id = pid)) with
          | some i => gs.players.eraseIdx i
          | none => gs.players
        if player.isHost then
          let humanPlayers := players1.filter (fun p => decide (p.isAI = false))
          match humanPlayers.head? with
          | some newHost => { gs with players := assignNewHost players1 newHost.id }
          | none => { gs with players := players1 }
        else { gs with players := players1 }
    if gs1.players.length = 0 ∨ gs1.players.all (fun p => p.isAI) then none
    else some gs1

/-- GameManager.returnToLobby: back to the lobby phase, reset index, winner
and round, clear all hands; no check of the current phase. -/
def returnToLobby (gs : GameState) : GameState :=
  { gs with
    gamePhase := .lobby
    currentPlayerIndex := 0
    winner := none
    currentRound := 1
    players := gs.players.map (fun p => { p with hand := some ([] : List Card) }) }

/-- One session of the GameManager together with its kicked-cooldown map
(sessions with different lobby codes are fully independent in the source, so
the public-operation state machine is modelled per session).  `game = none`
means the session is absent (never created, or deleted by leaveGame). -/
structure Sys where
  game : Option GameState
  kicked : List (String × Nat)
deriving DecidableEq

/-- The public state-mutating operations on one session, with the random and
clock inputs made explicit. -/
inductive Op where
  | join (playerName newPlayerId : String) (now : Nat)
  | start (playerId : String) (shuffled : List Card)
  | play (playerId : String) (card : Card)
  | kick (hostId targetPlayerId : String) (now : Nat)
  | leave (playerId : String)
  | toLobby
deriving DecidableEq

/-- createLobby at the system level. -/
def createSys (playerName gameId lobbyCode playerId : String) : Sys :=
  ⟨some (createLobby playerName gameId lobbyCode playerId), []⟩

/-- Dispatch of one public operation.  Every operation first resolves the
session and is a no-op when absent; a thrown error leaves the session
unchanged (joinLobby still performs its kicked-map cleanup, as in the
source). -/
def step (sys : Sys) (op : Op) : Sys :=
  match sys.game with
  | none => sys
  | some gs =>
    match op with
    | .join nm pid now =>
      let kicked1 := cleanupKicked sys.kicked now
      match joinLobby gs sys.kicked now nm pid with
      | .ok gs' => ⟨some gs', kicked1⟩
      | .error _ => ⟨some gs, kicked1⟩
    | .start pid shuffled =>
      match startGame gs pid shuffled with
      | .ok gs' => { sys with game := some gs' }
      | .error _ => sys
    | .play pid card =>
      match playCard gs pid card with
      | .ok gs' => { sys with game := some gs' }
      | .error _ => sys
    | .kick hostId targetId now =>
      match kickPlayer gs sys.kicked hostId targetId now with
      | .ok r => ⟨some r.1, r.2⟩
      | .error _ => sys
    | .leave pid => { sys with game := leaveGame gs pid }
    | .toLobby => { sys with game := some (returnToLobby gs) }

/-! ## Concrete reachable states used by counterexamples and witnesses -/

/-- A session right after createLobby("Alice") and a successful join of Bob. -/
def sysAB : Sys := step (createSys "Alice" "g1" "LOBBY1" "A") (.join "Bob" "B" 0)

/-- The previous session after the host started the game.  `buildDeck` itself
is passed as the shuffled deck: with 2 players no special case applies, and
the identity permutation is one possible outcome of the Fisher-Yates
shuffle. -/
def sysStarted : Sys := step sysAB (.start "A" buildDeck)

/-- A playing-phase state mid-trick: Alice (seat 0) has already led 4a, Bob
(seat 1) is about to play; the trump indicator has suit d and a single card
9c remains in the deck. -/
def gsRefill : GameState :=
  { id := "g", lobbyCode := "L"
    players :=
      [{ id := "A", name := "Alice", isHost := true, isAI := false, score := 0,
         hand := some [⟨5, .b⟩, ⟨6, .b⟩], wonCards := some [] },
       { id := "B", name := "Bob", isHost := false, isAI := false, score := 0,
         hand := some [⟨2, .d⟩, ⟨7, .b⟩, ⟨4, .c⟩], wonCards := some [] }]
    currentPlayerIndex := 1, gamePhase := .playing, maxPlayers := 5, chat := []
    currentRound := 1, deck := some [⟨9, .c⟩], playedCards := some [⟨"A", ⟨4, .a⟩⟩]
    lastCard := some ⟨5, .d⟩ }

/-- A playing-phase state whose current player (seat 1) is an AI holding
three distinct cards. -/
def gsAI : GameState :=
  { id := "g", lobbyCode := "L"
    players :=
      [{ id := "A", name := "Alice", isHost := true, isAI := false, score := 0,
         hand := some [⟨5, .b⟩, ⟨6, .b⟩, ⟨7, .b⟩] },
       { id := "X", name := "Xbot", isHost := false, isAI := true, score := 0,
         hand := some [⟨4, .c⟩, ⟨2, .d⟩, ⟨6, .a⟩] }]
    currentPlayerIndex := 1, gamePhase := .playing, maxPlayers := 5, chat := []
    currentRound := 1, deck := some [], playedCards := some [], lastCard := some ⟨5, .d⟩ }

/-- A 3-player playing-phase state at the start of a trick, Alice (seat 0) to
act; the turn timer is armed for Alice. -/
def gsTimer : GameState :=
  { id := "g", lobbyCode := "L"
    players :=
      [{ id := "A", name := "Alice", isHost := true, isAI := false, score := 0,
         hand := some [⟨5, .b⟩, ⟨6, .b⟩] },
       { id := "B", name := "Bob", isHost := false, isAI := false, score := 0,
         hand := some [⟨4, .c⟩, ⟨2, .d⟩, ⟨6, .a⟩] },
       { id := "C", name := "Caro", isHost := false, isAI := false, score := 0,
         hand := some [⟨9, .a⟩, ⟨8, .a⟩, ⟨7, .a⟩] }]
    currentPlayerIndex := 0, gamePhase := .playing, maxPlayers := 5, chat := []
    currentRound := 1, deck := some [], playedCards := some [], lastCard := some ⟨5, .d⟩ }

/-! ## Claim C3: phase transitions -/

/-- The transition discipline asserted by the claim: the phase only moves
along the cycle lobby -> playing -> ended -> lobby (or stays put). -/
def phaseCycleOk (p q : GamePhase) : Prop :=
  p = q ∨ (p = .lobby ∧ q = .playing) ∨ (p = .playing ∧ q = .ended) ∨
    (p = .ended ∧ q = .lobby)

instance (p q : GamePhase) : Decidable (phaseCycleOk p q) := by
  unfold phaseCycleOk
  infer_instance

/-- C3, counterexample: from the reachable state createLobby(Alice);
joinLobby(Bob); startGame(Alice) — which is in the playing phase — the public
operation returnToLobby moves the phase directly back to lobby, a transition
(playing -> lobby) that skips the ended step of the claimed cycle:
returnToLobby has no phase guard. -/
theorem phase_skip_counterexample :
    sysStarted.game.map (fun g => g.gamePhase) = some .playing ∧
    (step sysStarted .toLobby).game.map (fun g => g.gamePhase) = some .lobby ∧
    ¬ phaseCycleOk .playing .lobby := by
  refine ⟨by decide, by decide, by decide⟩

/-! ## Claim C7: host invariant -/

/-- C7, counterexample: in the reachable 2-human lobby createLobby(Alice);
joinLobby(Bob), the host Alice may kick herself (kickPlayer validates only
that the actor is host, never that the target differs).  kickPlayer performs
no host reassignment, so the surviving session contains the human Bob and no
host at all. -/
theorem host_selfkick_counterexample :
    (step sysAB (.kick "A" "A" 0)).game.map
        (fun g => (g.players.map (fun p => (p.isHost, p.isAI)),
                   g.players.countP (fun p => p.isHost)))
      = some ([(false, false)], 0) := by decide

/-! ## Claim C4: AI turns -/

/-- C4, counterexample: processAITurn draws the played card with
Math.random, not with the deterministic strategy of ai.ts (which the game
manager never calls).  The draws 0 and 1 are both possible outcomes of
`Math.floor(Math.random() * hand.length)` on the same state gsAI, and they
play different cards: two executions of the AI turn from identical session
states need not play the identical card. -/
theorem ai_turn_nondeterminism_counterexample :
    processAITurn gsAI 0 ≠ processAITurn gsAI 1 ∧
    (processAITurn gsAI 0).isSome = true ∧
    (processAITurn gsAI 1).isSome = true := by
  refine ⟨by decide, by decide, by decide⟩

/-! ## Claim C5: refill order -/

/-- C5, counterexample: Bob (seat 1) wins the trick with the trump 2d, and a
single card (9c) remains in the deck.  The refill loop iterates the players
array from seat 0, so Alice — not the trick winner — receives the last card:
Alice refills to [5b, 6b, 9c] while the winner Bob keeps two cards.  Under
the claim the refill would start with the winner and Bob would get 9c. -/
theorem refill_order_counterexample :
    (playCard gsRefill "B" ⟨2, .d⟩).toOption.map
        (fun gs' => (gs'.lastRoundWinner, gs'.players.map (fun p => p.hand)))
      = some (some "B",
          [some [⟨5, .b⟩, ⟨6, .b⟩, ⟨9, .c⟩], some [⟨7, .b⟩, ⟨4, .c⟩]]) := by decide

/-! ## Claim C6: stale turn timer -/

/-- C6, counterexample: the timer of gsTimer is armed for Alice (seat 0).
Alice then plays explicitly and the turn advances to Bob.  A stale firing of
the callback on the new state is not a no-op: the callback re-checks only
the phase and the hand of whoever is now at currentPlayerIndex — it has no
memory of the player it was armed for — and therefore auto-plays one of
Bob's cards (playedCards grows to 2 and Bob's hand shrinks to 2). -/
theorem stale_timer_counterexample :
    (playCard gsTimer "A" ⟨5, .b⟩).toOption.map (fun gs1 =>
        (gs1.currentPlayerIndex,
         (timerFire gs1 0).map (fun g2 =>
            (g2.playedCards.map List.length,
             g2.players.map (fun p => p.hand.map List.length)))))
      = some (1, some (some 2, [some 1, some 2, some 3])) := by decide

/-! ## Helper lemmas about the embedded list primitives -/

theorem updateFirstBy_length (ps : List Player) (pred : Player → Bool) (f : Player → Player) :
    (updateFirstBy ps pred f).length = ps.length := by
  induction ps with
  | nil => rfl
  | cons p rest ih =>
    unfold updateFirstBy
    split
    · simp
    · simpa using ih

theorem find?_updateFirstBy (ps : List Player) (pred : Player → Bool) (f : Player → Player)
    (p : Player) (hfind : ps.find? pred = some p) (hpf : pred (f p) = true) :
    (updateFirstBy ps pred f).find? pred = some (f p) := by
  induction ps with
  | nil => simp at hfind
  | cons q rest ih =>
    unfold updateFirstBy
    by_cases hq : pred q = true
    · rw [List.find?_cons_of_pos _ hq] at hfind
      have hqp : q = p := by injection hfind
      subst hqp
      rw [if_pos hq, List.find?_cons_of_pos _ hpf]
    · have hq' : pred q = false := by simpa using hq
      rw [List.find?_cons_of_neg _ (by simp [hq'])] at hfind
      rw [if_neg (by simp [hq'])]
      rw [List.find?_cons_of_neg _ (by simp [hq'])]
      exact ih hfind

theorem getElem?_updateFirstBy_ne (ps : List Player) (pred : Player → Bool) (f : Player → Player)
    (i : Nat) (hi : i < ps.length) (hne : pred (ps.get ⟨i, hi⟩) = false) :
    (updateFirstBy ps pred f)[i]? = ps[i]? := by
  induction ps generalizing i with
  | nil => simp at hi
  | cons q rest ih =>
    unfold updateFirstBy
    by_cases hq : pred q = true
    · cases i with
      | zero =>
        simp only [List.get] at hne
        rw [hq] at hne
        cases hne
      | succ j =>
        rw [if_pos hq]
        simp
    · have hq' : pred q = false := by simpa using hq
      rw [if_neg (by simp [hq'])]
      cases i with
      | zero => simp
      | succ j =>
        have hj : j < rest.length := by simpa using hi
        have hne' : pred (rest.get ⟨j, hj⟩) = false := by simpa using hne
        simpa using ih j hj hne'

theorem foldl_sumValues (cards : List Card) (n : Nat) :
    cards.foldl (fun sum card => sum + getCardValue card) n = n + sumValues cards := by
  induction cards generalizing n with
  | nil => simp [sumValues]
  | cons c rest ih =>
    simp only [List.foldl_cons]
    rw [ih]
    have h2 : sumValues (c :: rest) = getCardValue c + sumValues rest := by
      have h0 : sumValues (c :: rest) =
          List.foldl (fun sum card => sum + getCardValue card) (0 + getCardValue c) rest := rfl
      rw [h0, ih]
      omega
    omega

theorem sumValues_append (a b : List Card) :
    sumValues (a ++ b) = sumValues a + sumValues b := by
  unfold sumValues
  rw [List.foldl_append]
  rw [foldl_sumValues]
  rfl

/-! ## Claim C2: trick collection and score recomputation -/

/-- C2: when a trick resolves with a winner, the first player whose id is the
winner's gains every card played in that trick in `wonCards`, and their score
is then recomputed from scratch as the value sum of all their won cards — in
particular, it equals the value sum of the previously won cards plus the
value sum of the trick, independently of the previously stored score (no
incremental add); every other seat is unchanged. -/
theorem trick_collection_recomputes_score
    (players : List Player) (played : List PlayedCard) (w : PlayedCard) (p : Player)
    (hfind : players.find? (fun q => decide (q.id = w.playerId)) = some p) :
    ∃ p', (collectTrick players played (some w)).find?
            (fun q => decide (q.id = w.playerId)) = some p' ∧
      p'.wonCards = some (p.wonCards.getD [] ++ played.map (fun pc => pc.card)) ∧
      p'.score = sumValues (p.wonCards.getD []) + sumValues (played.map (fun pc => pc.card)) ∧
      (collectTrick players played (some w)).length = players.length ∧
      ∀ i, (hlt : i < players.length) → (players.get ⟨i, hlt⟩).id ≠ w.playerId →
        (collectTrick players played (some w))[i]? = players[i]? := by
  have hid : p.id = w.playerId := by
    have h := List.find?_some hfind
    simpa using h
  refine ⟨_, find?_updateFirstBy players _ _ p hfind (by simpa using hid), rfl,
    sumValues_append _ _, updateFirstBy_length players _ _, ?_⟩
  intro i hlt hne
  exact getElem?_updateFirstBy_ne players _ _ i hlt (by simpa using hne)

/-- Concrete two-player list for the C2 witness: the winner-to-be p1 has
already won a card worth 2 but carries a stale stored score of 99. -/
def playersC2 : List Player :=
  [{ id := "p1", name := "P1", isHost := true, isAI := false, score := 99,
     hand := some [], wonCards := some [⟨8, .c⟩] },
   { id := "p2", name := "P2", isHost := false, isAI := false, score := 0,
     hand := some [], wonCards := some [] }]

/-- The trick of the spec example: p1 led 1a (value 11), p2 answered 3b
(value 10). -/
def trickC2 : List PlayedCard := [⟨"p1", ⟨1, .a⟩⟩, ⟨"p2", ⟨3, .b⟩⟩]

theorem trick_collection_recomputes_score_witness :
    playersC2.find? (fun q => decide (q.id = PlayedCard.playerId ⟨"p1", ⟨1, .a⟩⟩)) =
      some (playersC2.get ⟨0, by decide⟩) ∧
    (∃ p', (collectTrick playersC2 trickC2 (some ⟨"p1", ⟨1, .a⟩⟩)).find?
            (fun q => decide (q.id = PlayedCard.playerId ⟨"p1", ⟨1, .a⟩⟩)) = some p' ∧
      p'.wonCards = some ((playersC2.get ⟨0, by decide⟩).wonCards.getD [] ++
        trickC2.map (fun pc => pc.card)) ∧
      p'.score = sumValues ((playersC2.get ⟨0, by decide⟩).wonCards.getD []) +
        sumValues (trickC2.map (fun pc => pc.card)) ∧
      (collectTrick playersC2 trickC2 (some ⟨"p1", ⟨1, .a⟩⟩)).length = playersC2.length ∧
      ∀ i, (hlt : i < playersC2.length) →
        (playersC2.get ⟨i, hlt⟩).id ≠ PlayedCard.playerId ⟨"p1", ⟨1, .a⟩⟩ →
        (collectTrick playersC2 trickC2 (some ⟨"p1", ⟨1, .a⟩⟩))[i]? = playersC2[i]?) := by
  exact ⟨by decide,
    trick_collection_recomputes_score playersC2 trickC2 ⟨"p1", ⟨1, .a⟩⟩ _ (by decide)⟩

/-! ## Claim C8: playCard never checks the acting player -/

theorem Card.ext' (c d : Card) (h1 : c.number = d.number) (h2 : c.suit = d.suit) : c = d := by
  cases c
  cases d
  cases h1
  cases h2
  rfl

/-- The non-trick-completing path of playCard: the validations pass, the card
at the first matching hand index is removed, the trick entry is appended and
the turn index advances by one modulo the player count.  Note that no
hypothesis relates `pid` to `currentPlayerIndex`. -/
theorem playCard_nonfinal
    (gs : GameState) (pid : String) (card : Card) (p : Player) (hand : List Card) (ci : Nat)
    (hphase : gs.gamePhase = .playing)
    (hfind : gs.players.find? (fun q => decide (q.id = pid)) = some p)
    (hhand : p.hand = some hand)
    (hidx : hand.findIdx? (fun c => decide (c.number = card.number ∧ c.suit = card.suit)) = some ci)
    (hnc : (gs.playedCards.getD []).length + 1 ≠ gs.players.length) :
    playCard gs pid card = .ok { gs with
      players := updateFirst gs.players pid (fun q => { q with hand := some (hand.eraseIdx ci) })
      playedCards := some (gs.playedCards.getD [] ++ [⟨pid, card⟩])
      currentPlayerIndex := (gs.currentPlayerIndex + 1) % gs.players.length } := by
  obtain ⟨hci, hpi, -⟩ := List.findIdx?_eq_some_iff_getElem.mp hidx
  have hcard : hand[ci] = card := by
    simp only [decide_eq_true_eq] at hpi
    exact Card.ext' _ _ hpi.1 hpi.2
  have hsplice : spliceOne hand ci = (some card, hand.eraseIdx ci) := by
    unfold spliceOne
    rw [List.getElem?_eq_getElem hci, hcard]
  have hlen1 : (updateFirst gs.players pid
      (fun q => { q with hand := some (hand.eraseIdx ci) })).length = gs.players.length :=
    updateFirstBy_length _ _ _
  have hifneg : ¬ ((gs.playedCards.getD [] ++ [(⟨pid, card⟩ : PlayedCard)]).length =
      (updateFirst gs.players pid (fun q => { q with hand := some (hand.eraseIdx ci) })).length) := by
    rw [hlen1]
    simpa using hnc
  unfold playCard
  rw [if_neg (by simp [hphase]), hfind]
  simp only [hhand, hidx, hsplice, if_neg hifneg]
  rw [hlen1]

/-- C8: in the playing phase, for a seated player whose hand contains the
submitted card, playCard succeeds even when that player is not the one at
currentPlayerIndex (the deliberately unused hypothesis `hnotcur` records
this): the card at the first matching hand index is removed, the trick gains
the entry, and currentPlayerIndex becomes (previous + 1) mod (number of
players) regardless of who played.  (The hypothesis `hnc` restricts to plays
that do not complete the trick; a completing play additionally resolves the
trick and overwrites the index with the winner's seat.) -/
theorem playCard_ignores_turn_order
    (gs : GameState) (pid : String) (card : Card) (p : Player) (hand : List Card) (ci : Nat)
    (hphase : gs.gamePhase = .playing)
    (hfind : gs.players.find? (fun q => decide (q.id = pid)) = some p)
    (hhand : p.hand = some hand)
    (hidx : hand.findIdx? (fun c => decide (c.number = card.number ∧ c.suit = card.suit)) = some ci)
    (hnc : (gs.playedCards.getD []).length + 1 ≠ gs.players.length)
    (_hnotcur : ∀ q, gs.players[gs.currentPlayerIndex]? = some q → q.id ≠ pid) :
    playCard gs pid card = .ok { gs with
      players := updateFirst gs.players pid (fun q => { q with hand := some (hand.eraseIdx ci) })
      playedCards := some (gs.playedCards.getD [] ++ [⟨pid, card⟩])
      currentPlayerIndex := (gs.currentPlayerIndex + 1) % gs.players.length } :=
  playCard_nonfinal gs pid card p hand ci hphase hfind hhand hidx hnc

theorem playCard_ignores_turn_order_witness :
    gsTimer.gamePhase = .playing ∧
    (gsTimer.playedCards.getD []).length + 1 ≠ gsTimer.players.length ∧
    playCard gsTimer "B" ⟨2, .d⟩ = .ok { gsTimer with
      players := updateFirst gsTimer.players "B"
        (fun q => { q with hand := some (([⟨4, .c⟩, ⟨2, .d⟩, ⟨6, .a⟩] : List Card).eraseIdx 1) })
      playedCards := some (gsTimer.playedCards.getD [] ++ [⟨"B", ⟨2, .d⟩⟩])
      currentPlayerIndex := (gsTimer.currentPlayerIndex + 1) % gsTimer.players.length } := by
  have hnotcur : ∀ q, gsTimer.players[gsTimer.currentPlayerIndex]? = some q → q.id ≠ "B" := by
    intro q hq
    have h2 := Option.some.inj hq
    rw [← h2]
    decide
  exact ⟨by decide, by decide,
    playCard_ignores_turn_order gsTimer "B" ⟨2, .d⟩
      { id := "B", name := "Bob", isHost := false, isAI := false, score := 0,
        hand := some [⟨4, .c⟩, ⟨2, .d⟩, ⟨6, .a⟩] }
      [⟨4, .c⟩, ⟨2, .d⟩, ⟨6, .a⟩] 1
      (by decide) (by decide) (by decide) (by decide) (by decide) hnotcur⟩

/-! ## Claim C9: deal sizes and card conservation at start -/

theorem head?_take (l : List Card) (k : Nat) (hk : 0 < k) : (l.take k).head? = l.head? := by
  cases l with
  | nil => simp
  | cons x xs =>
    cases k with
    | zero => omega
    | succ m => simp

theorem drawN_spec (n : Nat) (d : List Card) (h : n ≤ d.length) :
    (drawN n d).1.length = n ∧ (drawN n d).2 = d.take (d.length - n) := by
  induction n generalizing d with
  | zero => simp [drawN]
  | succ m ih =>
    cases hlast : d.getLast? with
    | none =>
      rw [List.getLast?_eq_none_iff] at hlast
      subst hlast
      simp at h
    | some c =>
      have hd : d ≠ [] := by
        intro he
        subst he
        simp at hlast
      have hdl : d.dropLast.length = d.length - 1 := by simp
      obtain ⟨ih1, ih2⟩ := ih d.dropLast (by omega)
      constructor
      · simp only [drawN, hlast]
        simpa using ih1
      · simp only [drawN, hlast]
        rw [hdl] at ih2
        rw [ih2, List.dropLast_eq_take, List.take_take]
        congr 1
        omega

theorem dealHands_spec (ps : List Player) (d : List Card) (h : 3 * ps.length ≤ d.length) :
    (∀ p ∈ (dealHands ps d).1, p.hand.map List.length = some 3) ∧
    (dealHands ps d).1.length = ps.length ∧
    (dealHands ps d).2 = d.take (d.length - 3 * ps.length) := by
  induction ps generalizing d with
  | nil => simp [dealHands]
  | cons p rest ih =>
    have hlen : (3 : Nat) ≤ d.length := by
      simp only [List.length_cons] at h
      omega
    obtain ⟨h1, h2⟩ := drawN_spec 3 d hlen
    have hlen2 : (drawN 3 d).2.length = d.length - 3 := by
      rw [h2]
      simp only [List.length_take]
      omega
    have hrest : 3 * rest.length ≤ (drawN 3 d).2.length := by
      rw [hlen2]
      simp only [List.length_cons] at h
      omega
    obtain ⟨ih1, ih2, ih3⟩ := ih (drawN 3 d).2 hrest
    refine ⟨?_, ?_, ?_⟩
    · intro q hq
      unfold dealHands at hq
      rcases List.mem_cons.mp hq with hq1 | hq2
      · rw [hq1]
        simp [h1]
      · exact ih1 q hq2
    · unfold dealHands
      simp [ih2]
    · unfold dealHands
      rw [hlen2] at ih3
      simp only []
      rw [ih3, h2, List.take_take]
      simp only [List.length_cons]
      congr 1
      omega

/-- C9: whenever startGame succeeds with a shuffled deck that is a
permutation of the built deck for the session's player count, every player's
hand has exactly 3 cards and the remaining deck plus the dealt hands account
for 40 cards (39 for 3 players); the trump indicator is the head of the
remaining deck — revealed but not removed — and for 3 players exactly one of
the four rank-2 cards was removed before shuffling.  (Success itself forces
2-5 players.) -/
theorem startGame_deals_three_each
    (gs : GameState) (pid : String) (shuffled : List Card) (gs' : GameState)
    (hperm : shuffled.Perm (handleSpecialDeckCases buildDeck gs.players.length))
    (hok : startGame gs pid shuffled = .ok gs') :
    (∀ p ∈ gs'.players, p.hand.map List.length = some 3) ∧
    (∃ d, gs'.deck = some d ∧
       d.length + 3 * gs.players.length = (if gs.players.length = 3 then 39 else 40) ∧
       gs'.lastCard = d.head? ∧ gs'.lastCard ≠ none) ∧
    gs'.players.length = gs.players.length ∧
    buildDeck.length = 40 ∧
    (handleSpecialDeckCases buildDeck 3).length = 39 ∧
    buildDeck.countP (fun c => decide (c.number = 2)) = 4 ∧
    (handleSpecialDeckCases buildDeck 3).countP (fun c => decide (c.number = 2)) = 3 := by
  unfold startGame at hok
  cases hfind : gs.players.find? (fun p => decide (p.id = pid)) with
  | none =>
    rw [hfind] at hok
    cases hok
  | some player =>
    simp only [hfind] at hok
    by_cases hhost : player.isHost = false
    · rw [if_pos hhost] at hok
      cases hok
    · rw [if_neg hhost] at hok
      by_cases h2 : gs.players.length < 2
      · rw [if_pos h2] at hok
        cases hok
      · rw [if_neg h2] at hok
        by_cases h5 : gs.players.length > 5
        · rw [if_pos h5] at hok
          cases hok
        · rw [if_neg h5] at hok
          have hgs' := Except.ok.inj hok
          subst hgs'
          have hL : shuffled.length = (if gs.players.length = 3 then 39 else 40) := by
            rw [hperm.length_eq]
            by_cases h3 : gs.players.length = 3
            · rw [if_pos h3, h3]
              decide
            · rw [if_neg h3]
              unfold handleSpecialDeckCases
              rw [if_neg h3]
              decide
          have hLge : 39 ≤ shuffled.length := by
            rw [hL]
            split <;> omega
          have hN5 : gs.players.length ≤ 5 := by omega
          have hmap : (gs.players.map resetPlayer).length = gs.players.length := by simp
          have hdeal : 3 * (gs.players.map resetPlayer).length ≤ shuffled.length := by
            rw [hmap]
            omega
          obtain ⟨hh3, hlen, hdk⟩ := dealHands_spec (gs.players.map resetPlayer) shuffled hdeal
          rw [hmap] at hlen hdk
          have hheadpos : 0 < shuffled.length - 3 * gs.players.length := by omega
          cases hhead : shuffled.head? with
          | none =>
            rw [List.head?_eq_none_iff] at hhead
            subst hhead
            simp at hLge
          | some c =>
            refine ⟨hh3, ⟨shuffled.take (shuffled.length - 3 * gs.players.length), ?_, ?_, ?_, ?_⟩,
              ?_, by decide, by decide, by decide, by decide⟩
            · show some ((dealHands (gs.players.map resetPlayer) shuffled).2) =
                some (shuffled.take (shuffled.length - 3 * gs.players.length))
              rw [hdk]
            · rw [List.length_take]
              rw [← hL]
              omega
            · show (some c : Option Card) =
                  (shuffled.take (shuffled.length - 3 * gs.players.length)).head?
              rw [head?_take _ _ hheadpos]
              rw [hhead]
            · show (some c : Option Card) ≠ none
              simp
            · show (dealHands (gs.players.map resetPlayer) shuffled).1.length = gs.players.length
              exact hlen

/-- The 2-player lobby Alice (host) + Bob, built by the public operations. -/
def gsLobbyAB : GameState :=
  (joinLobby (createLobby "Alice" "g1" "L1" "A") [] 0 "Bob" "B").toOption.getD
    (createLobby "Alice" "g1" "L1" "A")

/-- The session right after Alice starts the game in gsLobbyAB with the
identity shuffle. -/
def startedAB : GameState :=
  (startGame gsLobbyAB "A" buildDeck).toOption.getD gsLobbyAB

theorem startGame_deals_three_each_witness :
    buildDeck.Perm (handleSpecialDeckCases buildDeck gsLobbyAB.players.length) ∧
    startGame gsLobbyAB "A" buildDeck = .ok startedAB ∧
    ((∀ p ∈ startedAB.players, p.hand.map List.length = some 3) ∧
     (∃ d, startedAB.deck = some d ∧
        d.length + 3 * gsLobbyAB.players.length =
          (if gsLobbyAB.players.length = 3 then 39 else 40) ∧
        startedAB.lastCard = d.head? ∧ startedAB.lastCard ≠ none) ∧
     startedAB.players.length = gsLobbyAB.players.length ∧
     buildDeck.length = 40 ∧
     (handleSpecialDeckCases buildDeck 3).length = 39 ∧
     buildDeck.countP (fun c => decide (c.number = 2)) = 4 ∧
     (handleSpecialDeckCases buildDeck 3).countP (fun c => decide (c.number = 2)) = 3) := by
  have hperm : buildDeck.Perm (handleSpecialDeckCases buildDeck gsLobbyAB.players.length) := by
    rw [show handleSpecialDeckCases buildDeck gsLobbyAB.players.length = buildDeck from rfl]
  have hok : startGame gsLobbyAB "A" buildDeck = .ok startedAB := rfl
  exact ⟨hperm, hok, startGame_deals_three_each gsLobbyAB "A" buildDeck startedAB hperm hok⟩

/-! ## Claim C10: kick cooldown blocks and then permits rejoin -/

theorem mapSet_mem (m : List (String × Nat)) (k : String) (v : Nat) :
    (k, v) ∈ mapSet m k v := by
  unfold mapSet
  by_cases hany : m.any (fun e => decide (e.1 = k)) = true
  · rw [if_pos hany]
    obtain ⟨e, hem, hek⟩ := List.any_eq_true.mp hany
    simp only [decide_eq_true_eq] at hek
    refine List.mem_map.mpr ⟨e, hem, ?_⟩
    rw [if_pos hek]
  · rw [if_neg hany]
    simp

theorem mapSet_key_eq (m : List (String × Nat)) (k : String) (v : Nat) :
    ∀ e ∈ mapSet m k v, e.1 = k → e = (k, v) := by
  intro e hmem he1
  unfold mapSet at hmem
  by_cases hany : m.any (fun e => decide (e.1 = k)) = true
  · rw [if_pos hany] at hmem
    obtain ⟨e0, he0, hfe0⟩ := List.mem_map.mp hmem
    by_cases h0 : e0.1 = k
    · rw [if_pos h0] at hfe0
      exact hfe0.symm
    · rw [if_neg h0] at hfe0
      rw [← hfe0] at he1
      exact absurd he1 h0
  · rw [if_neg hany] at hmem
    rcases List.mem_append.mp hmem with hin | hone
    · have hall := List.any_eq_false.mp (Bool.eq_false_iff.mpr hany) e hin
      simp only [decide_eq_true_eq] at hall
      exact absurd he1 hall
    · simpa using hone

theorem mapSet_keys_nodup (m : List (String × Nat)) (k : String) (v : Nat)
    (h : (m.map Prod.fst).Nodup) : ((mapSet m k v).map Prod.fst).Nodup := by
  unfold mapSet
  by_cases hany : m.any (fun e => decide (e.1 = k)) = true
  · rw [if_pos hany]
    rw [List.map_map]
    have hcong : m.map (Prod.fst ∘ fun e => if e.1 = k then (k, v) else e) = m.map Prod.fst := by
      refine List.map_congr_left ?_
      intro e he
      by_cases h0 : e.1 = k
      · simp [h0]
      · simp [h0]
    rw [hcong]
    exact h
  · rw [if_neg hany]
    rw [List.map_append]
    have hk : k ∉ m.map Prod.fst := by
      intro hkin
      obtain ⟨e, hem, hek⟩ := List.mem_map.mp hkin
      have hall := List.any_eq_false.mp (Bool.eq_false_iff.mpr hany) e hem
      simp only [decide_eq_true_eq] at hall
      exact hall hek
    simp [List.nodup_append, h, hk]

theorem cleanupKicked_cons_drop (k : String) (v : Nat) (rest : List (String × Nat)) (now : Nat)
    (hv : v < now) : cleanupKicked ((k, v) :: rest) now = cleanupKicked rest now := by
  simp [cleanupKicked, List.filter_cons, hv]

theorem cleanupKicked_cons_keep (k : String) (v : Nat) (rest : List (String × Nat)) (now : Nat)
    (hv : ¬ v < now) : cleanupKicked ((k, v) :: rest) now = (k, v) :: cleanupKicked rest now := by
  simp [cleanupKicked, List.filter_cons, hv]

theorem findKickBlock_found (kl : List (String × Nat)) (nm : String) (now exp : Nat)
    (hnd : (kl.map Prod.fst).Nodup) (hmem : (nm, exp) ∈ kl) (hnm : nm ≠ "") (hle : now ≤ exp) :
    findKickBlock (cleanupKicked kl now) nm now = some (exp - now) := by
  induction kl with
  | nil => simp at hmem
  | cons e rest ih =>
    obtain ⟨k, v⟩ := e
    simp only [List.map_cons, List.nodup_cons] at hnd
    obtain ⟨hk, hnd'⟩ := hnd
    rcases List.mem_cons.mp hmem with he | hmem'
    · have h1 : nm = k := congrArg Prod.fst he
      have h2 : exp = v := congrArg Prod.snd he
      subst h1
      subst h2
      rw [cleanupKicked_cons_keep _ _ _ _ (by omega)]
      unfold findKickBlock
      rw [if_neg (by push_neg; exact ⟨hnm, by omega⟩)]
      rw [if_pos rfl]
    · have hkn : k ≠ nm := by
        intro hkk
        subst hkk
        exact hk (List.mem_map.mpr ⟨(k, exp), hmem', rfl⟩)
      by_cases hv : v < now
      · rw [cleanupKicked_cons_drop _ _ _ _ hv]
        exact ih hnd' hmem'
      · rw [cleanupKicked_cons_keep _ _ _ _ hv]
        unfold findKickBlock
        rw [if_neg (by push_neg; exact ⟨hnm, by omega⟩)]
        rw [if_neg hkn]
        exact ih hnd' hmem'

theorem findKickBlock_expired (kl : List (String × Nat)) (nm : String) (now : Nat)
    (hall : ∀ e ∈ kl, e.1 = nm → e.2 < now) :
    findKickBlock (cleanupKicked kl now) nm now = none := by
  induction kl with
  | nil => rfl
  | cons e rest ih =>
    obtain ⟨k, v⟩ := e
    have ih' := ih (fun e he h1 => hall e (List.mem_cons_of_mem _ he) h1)
    by_cases hv : v < now
    · rw [cleanupKicked_cons_drop _ _ _ _ hv]
      exact ih'
    · rw [cleanupKicked_cons_keep _ _ _ _ hv]
      unfold findKickBlock
      by_cases hnm0 : nm = "" ∨ v < now
      · rw [if_pos hnm0]
        exact ih'
      · rw [if_neg hnm0]
        have hkn : ¬ k = nm := by
          intro hkk
          exact hv (hall (k, v) (by simp) hkk)
        rw [if_neg hkn]
        exact ih'

/-- C10: after kickPlayer removes a target with a non-empty name, every
joinLobby under that name up to 30000 ms after the kick fails with the
structured KICK_TIMEOUT error carrying the remaining wait in milliseconds
(the error is thrown before any mutation, so the session is unchanged);
once the cooldown has expired, a join under that name succeeds again
(provided the ordinary join conditions hold: free capacity, no live player
with that name, no AI reconnect target, phase not playing) and appends the
new player. -/
theorem kick_cooldown_blocks_then_allows
    (gs : GameState) (kicked : List (String × Nat)) (hostId targetId : String) (now0 : Nat)
    (gs' : GameState) (kicked' : List (String × Nat)) (target : Player) (ti : Nat)
    (hnd : (kicked.map Prod.fst).Nodup)
    (hidx : gs.players.findIdx? (fun p => decide (p.id = targetId)) = some ti)
    (htgt : gs.players[ti]? = some target)
    (hname : target.name ≠ "")
    (hok : kickPlayer gs kicked hostId targetId now0 = .ok (gs', kicked')) :
    (∀ now pid2, now ≤ now0 + 30000 →
       joinLobby gs' kicked' now target.name pid2 =
         .error (.kickTimeout (now0 + 30000 - now))) ∧
    (∀ now pid2, now0 + 30000 < now →
       gs'.players.length < gs'.maxPlayers →
       (∀ p ∈ gs'.players, p.name ≠ target.name) →
       (∀ p ∈ gs'.players, ¬ (p.name = target.name ++ "bot" ∧ p.isAI = true)) →
       gs'.gamePhase ≠ .playing →
       joinLobby gs' kicked' now target.name pid2 =
         .ok { gs' with players := gs'.players ++
           [{ id := pid2, name := target.name, isHost := false, isAI := false, score := 0 }] }) := by
  unfold kickPlayer at hok
  cases hfh : gs.players.find? (fun p => decide (p.id = hostId)) with
  | none =>
    rw [hfh] at hok
    cases hok
  | some host =>
    simp only [hfh] at hok
    by_cases hhost : host.isHost = false
    · rw [if_pos hhost] at hok
      cases hok
    · rw [if_neg hhost] at hok
      simp only [hidx, htgt] at hok
      have hpair := Except.ok.inj hok
      have hkl : kicked' = mapSet kicked target.name (now0 + 30000) :=
        (congrArg Prod.snd hpair).symm
      subst hkl
      constructor
      · intro now pid2 hle
        have hfb : findKickBlock
            (cleanupKicked (mapSet kicked target.name (now0 + 30000)) now) target.name now =
            some ((now0 + 30000) - now) :=
          findKickBlock_found _ _ _ _ (mapSet_keys_nodup kicked _ _ hnd)
            (mapSet_mem kicked _ _) hname hle
        unfold joinLobby
        simp only [hfb]
      · intro now pid2 hgt hcap hdup hbot hphase
        have hfb : findKickBlock
            (cleanupKicked (mapSet kicked target.name (now0 + 30000)) now) target.name now =
            none := by
          refine findKickBlock_expired _ _ _ ?_
          intro e he h1
          have he2 := mapSet_key_eq kicked _ _ e he h1
          rw [he2]
          omega
        have hany : gs'.players.any (fun p => decide (p.name = target.name)) = false := by
          rw [List.any_eq_false]
          intro p hp
          simpa using hdup p hp
        have hfb2 : gs'.players.find?
            (fun p => decide (p.name = target.name ++ "bot" ∧ p.isAI = true)) = none := by
          rw [List.find?_eq_none]
          intro p hp
          simpa using hbot p hp
        unfold joinLobby
        simp only [hfb, hfb2]
        rw [if_neg (by omega)]
        rw [if_neg (by simp [hany])]
        rw [if_neg hphase]

/-- The result of Alice kicking Bob from gsLobbyAB at time 1000. -/
def kickedAB : GameState × List (String × Nat) :=
  (kickPlayer gsLobbyAB [] "A" "B" 1000).toOption.getD (gsLobbyAB, [])

theorem kick_cooldown_blocks_then_allows_witness :
    kickPlayer gsLobbyAB [] "A" "B" 1000 = .ok (kickedAB.1, kickedAB.2) ∧
    joinLobby kickedAB.1 kickedAB.2 5000 "Bob" "B2" =
      .error (.kickTimeout (1000 + 30000 - 5000)) ∧
    joinLobby kickedAB.1 kickedAB.2 31001 "Bob" "B2" =
      .ok { kickedAB.1 with players := kickedAB.1.players ++
        [{ id := "B2", name := "Bob", isHost := false, isAI := false, score := 0 }] } := by
  have hok : kickPlayer gsLobbyAB [] "A" "B" 1000 = .ok (kickedAB.1, kickedAB.2) := rfl
  have h := kick_cooldown_blocks_then_allows gsLobbyAB [] "A" "B" 1000 kickedAB.1 kickedAB.2
    { id := "B", name := "Bob", isHost := false, isAI := false, score := 0 } 1
    (by simp) (by decide) (by decide) (by decide) hok
  exact ⟨hok, h.1 5000 "B2" (by omega), h.2 31001 "B2" (by omega)
    (by decide) (by decide) (by decide) (by decide)⟩

/-! ## Claim C1: dominant suit and trick winner -/

/-- The strict precedence order realised by the winner fold: card `c` beats
card `d` when its point value is higher, or both values are 0 (the tied
case) and `c` has the higher rank number. -/
def beats (c d : Card) : Prop :=
  getCardValue d < getCardValue c ∨
    (getCardValue c = getCardValue d ∧ getCardValue c = 0 ∧ d.number < c.number)

instance (c d : Card) : Decidable (beats c d) := by
  unfold beats
  infer_instance

/-- The winner fold restricted to dominant-suit cards, seeded with the first
such card. -/
def pickBest (w : PlayedCard) (xs : List PlayedCard) : PlayedCard :=
  xs.foldl (fun a pc => if beats pc.card a.card then pc else a) w

theorem beats_trans (a b c : Card) (h1 : beats a b) (h2 : beats b c) : beats a c := by
  unfold beats at *
  omega

theorem getCardValue_inj_nonzero (a b : Card) (h : getCardValue a = getCardValue b)
    (hnz : getCardValue a ≠ 0) : a.number = b.number := by
  unfold getCardValue at *
  split_ifs at * <;> omega

theorem beats_total_of_number_ne (a b : Card) (h : a.number ≠ b.number) :
    beats a b ∨ beats b a := by
  by_cases hv : getCardValue a = getCardValue b
  · by_cases hz : getCardValue a = 0
    · rcases Nat.lt_or_ge a.number b.number with hn | hn
      · right
        right
        omega
      · left
        right
        omega
    · exact absurd (getCardValue_inj_nonzero a b hv hz) h
  · rcases Nat.lt_or_ge (getCardValue a) (getCardValue b) with hlt | hge
    · right
      left
      exact hlt
    · left
      left
      omega

theorem winnerStep_some (w x : PlayedCard) :
    winnerStep (some w, (getCardValue w.card : Int), (w.card.number : Int)) x =
      if beats x.card w.card
      then (some x, (getCardValue x.card : Int), (x.card.number : Int))
      else (some w, (getCardValue w.card : Int), (w.card.number : Int)) := by
  have hiff : ((getCardValue x.card : Int) > (getCardValue w.card : Int) ∨
      ((getCardValue x.card : Int) = (getCardValue w.card : Int) ∧
       (getCardValue x.card : Int) = 0 ∧ (x.card.number : Int) > (w.card.number : Int)))
      ↔ beats x.card w.card := by
    unfold beats
    constructor
    · rintro (h | ⟨h1, h2, h3⟩)
      · left
        omega
      · right
        refine ⟨by omega, by omega, by omega⟩
    · rintro (h | ⟨h1, h2, h3⟩)
      · left
        omega
      · right
        refine ⟨by omega, by omega, by omega⟩
  show (if (getCardValue x.card : Int) > (getCardValue w.card : Int) ∨
        ((getCardValue x.card : Int) = (getCardValue w.card : Int) ∧
         (getCardValue x.card : Int) = 0 ∧ (x.card.number : Int) > (w.card.number : Int))
      then ((some x : Option PlayedCard), (getCardValue x.card : Int), (x.card.number : Int))
      else ((some w : Option PlayedCard), (getCardValue w.card : Int), (w.card.number : Int)))
    = _
  by_cases h : beats x.card w.card
  · rw [if_pos (hiff.mpr h), if_pos h]
  · rw [if_neg (fun hc => h (hiff.mp hc)), if_neg h]

theorem foldl_winnerStep_from (xs : List PlayedCard) (w : PlayedCard) :
    xs.foldl winnerStep (some w, (getCardValue w.card : Int), (w.card.number : Int)) =
      (some (pickBest w xs), (getCardValue (pickBest w xs).card : Int),
       ((pickBest w xs).card.number : Int)) := by
  induction xs generalizing w with
  | nil => simp [pickBest]
  | cons x xs ih =>
    rw [List.foldl_cons, winnerStep_some]
    have hp : pickBest w (x :: xs) = pickBest (if beats x.card w.card then x else w) xs := rfl
    by_cases h : beats x.card w.card
    · rw [if_pos h, hp, if_pos h]
      exact ih x
    · rw [if_neg h, hp, if_neg h]
      exact ih w

theorem foldl_skip_filter (dom : Option Suit) (l : List PlayedCard)
    (acc : Option PlayedCard × Int × Int) :
    l.foldl (fun acc pc => if some pc.card.suit = dom then winnerStep acc pc else acc) acc =
      (l.filter (fun pc => decide (some pc.card.suit = dom))).foldl winnerStep acc := by
  induction l generalizing acc with
  | nil => rfl
  | cons x xs ih =>
    rw [List.foldl_cons, List.filter_cons]
    by_cases h : some x.card.suit = dom
    · rw [if_pos h, if_pos (by simpa using h), List.foldl_cons]
      exact ih _
    · rw [if_neg h, if_neg (by simpa using h)]
      exact ih _

theorem pickWinner_eq (dom : Option Suit) (played : List PlayedCard) :
    pickWinner dom played =
      match played.filter (fun pc => decide (some pc.card.suit = dom)) with
      | [] => none
      | x :: xs => some (pickBest x xs) := by
  unfold pickWinner
  rw [foldl_skip_filter]
  cases hf : played.filter (fun pc => decide (some pc.card.suit = dom)) with
  | nil => rfl
  | cons x xs =>
    rw [List.foldl_cons]
    have hstep : winnerStep ((none : Option PlayedCard), (-1 : Int), (-1 : Int)) x =
        (some x, (getCardValue x.card : Int), (x.card.number : Int)) := by
      unfold winnerStep
      rw [if_pos ?_]
      left
      show ((-1 : Int) < (getCardValue x.card : Int))
      omega
    rw [hstep, foldl_winnerStep_from]

theorem pickBest_mem (w : PlayedCard) (xs : List PlayedCard) : pickBest w xs ∈ w :: xs := by
  induction xs generalizing w with
  | nil => simp [pickBest]
  | cons x xs ih =>
    have hp : pickBest w (x :: xs) = pickBest (if beats x.card w.card then x else w) xs := rfl
    rw [hp]
    by_cases h : beats x.card w.card
    · rw [if_pos h]
      exact List.mem_cons_of_mem _ (ih x)
    · rw [if_neg h]
      rcases List.mem_cons.mp (ih w) with h1 | h1
      · rw [h1]
        exact List.mem_cons_self _ _
      · exact List.mem_cons_of_mem _ (List.mem_cons_of_mem _ h1)

theorem pickBest_max (w : PlayedCard) (xs : List PlayedCard)
    (hnd : (w :: xs).Pairwise (fun a b => a.card.number ≠ b.card.number)) :
    ∀ pc ∈ w :: xs, pc = pickBest w xs ∨ beats (pickBest w xs).card pc.card := by
  induction xs generalizing w with
  | nil =>
    intro pc hpc
    left
    have h1 : pc = w := by simpa using hpc
    simpa [pickBest] using h1
  | cons x xs ih =>
    have hp : pickBest w (x :: xs) = pickBest (if beats x.card w.card then x else w) xs := rfl
    rw [List.pairwise_cons] at hnd
    obtain ⟨hw, hnd1⟩ := hnd
    have hnd1' := hnd1
    rw [List.pairwise_cons] at hnd1'
    obtain ⟨hx, hnd2⟩ := hnd1'
    by_cases h : beats x.card w.card
    · have ihx := ih x hnd1
      intro pc hpc
      rw [hp, if_pos h]
      rcases List.mem_cons.mp hpc with rfl | hpc1
      · rcases ihx x (List.mem_cons_self _ _) with hb | hb
        · right
          rw [← hb]
          exact h
        · right
          exact beats_trans _ _ _ hb h
      · exact ihx pc hpc1
    · have hwx : beats w.card x.card := by
        have hne : x.card.number ≠ w.card.number := (hw x (List.mem_cons_self _ _)).symm
        rcases beats_total_of_number_ne x.card w.card hne with hb | hb
        · exact absurd hb h
        · exact hb
      have hnd' : (w :: xs).Pairwise (fun a b => a.card.number ≠ b.card.number) :=
        List.pairwise_cons.mpr ⟨fun b hb => hw b (List.mem_cons_of_mem _ hb), hnd2⟩
      have ihw := ih w hnd'
      intro pc hpc
      rw [hp, if_neg h]
      rcases List.mem_cons.mp hpc with rfl | hpc1
      · exact ihw pc (List.mem_cons_self _ _)
      · rcases List.mem_cons.mp hpc1 with rfl | hpc2
        · rcases ihw w (List.mem_cons_self _ _) with hb | hb
          · right
            rw [← hb]
            exact hwx
          · right
            exact beats_trans _ _ _ hb hwx
        · exact ihw pc (List.mem_cons_of_mem _ hpc2)

theorem dominantSuit_briscola (bs : Option Suit) (played : List PlayedCard)
    (h : ∃ pc ∈ played, some pc.card.suit = bs) : dominantSuit bs played = bs := by
  unfold dominantSuit
  obtain ⟨pc, hpc, hs⟩ := h
  have hmem : pc ∈ played.filter (fun pc => decide (some pc.card.suit = bs)) :=
    List.mem_filter.mpr ⟨hpc, by simpa using hs⟩
  rw [if_pos (List.length_pos.mpr (List.ne_nil_of_mem hmem))]

theorem dominantSuit_lead (bs : Option Suit) (played : List PlayedCard)
    (h : ∀ pc ∈ played, ¬ some pc.card.suit = bs) :
    dominantSuit bs played = played.head?.map (fun pc => pc.card.suit) := by
  unfold dominantSuit
  have hf : played.filter (fun pc => decide (some pc.card.suit = bs)) = [] :=
    List.filter_eq_nil_iff.mpr (fun pc hpc => by simpa using h pc hpc)
  rw [hf]
  simp

/-- C1: for a non-empty trick of pairwise-distinct cards (as tricks drawn
from one deck always are), the dominant suit is the trump suit whenever any
played card has the trump suit and otherwise the suit of the first card
played; the winner fold returns exactly one winner, a dominant-suit entry of
the trick whose card beats every other dominant-suit card under the fixed
value table with the value-0 higher-rank tie-break (the `beats` order). -/
theorem trick_resolution_correct (trump : Suit) (played : List PlayedCard)
    (hne : played ≠ [])
    (hnd : (played.map (fun pc => pc.card)).Nodup) :
    ((∃ pc ∈ played, pc.card.suit = trump) →
       dominantSuit (some trump) played = some trump) ∧
    ((∀ pc ∈ played, pc.card.suit ≠ trump) →
       dominantSuit (some trump) played = played.head?.map (fun pc => pc.card.suit)) ∧
    ∃ w, pickWinner (dominantSuit (some trump) played) played = some w ∧
      w ∈ played ∧
      some w.card.suit = dominantSuit (some trump) played ∧
      ∀ pc ∈ played, some pc.card.suit = dominantSuit (some trump) played →
        pc.card ≠ w.card → beats w.card pc.card := by
  refine ⟨?_, ?_, ?_⟩
  · rintro ⟨pc, hpc, hs⟩
    exact dominantSuit_briscola _ _ ⟨pc, hpc, by simp [hs]⟩
  · intro hall
    exact dominantSuit_lead _ _ (fun pc hpc => by simp [hall pc hpc])
  · have hfil : played.filter
        (fun pc => decide (some pc.card.suit = dominantSuit (some trump) played)) ≠ [] := by
      by_cases hex : ∃ pc ∈ played, pc.card.suit = trump
      · obtain ⟨pc, hpc, hs⟩ := hex
        have hdom : dominantSuit (some trump) played = some trump :=
          dominantSuit_briscola _ _ ⟨pc, hpc, by simp [hs]⟩
        have hmem : pc ∈ played.filter
            (fun pc => decide (some pc.card.suit = dominantSuit (some trump) played)) :=
          List.mem_filter.mpr ⟨hpc, by simp [hdom, hs]⟩
        exact List.ne_nil_of_mem hmem
      · push_neg at hex
        have hdom : dominantSuit (some trump) played =
            played.head?.map (fun pc => pc.card.suit) :=
          dominantSuit_lead _ _ (fun pc hpc => by simp [hex pc hpc])
        obtain ⟨h0, t0, he⟩ := List.exists_cons_of_ne_nil hne
        have hh : played.head? = some h0 := by rw [he]; rfl
        have hmem : h0 ∈ played.filter
            (fun pc => decide (some pc.card.suit = dominantSuit (some trump) played)) := by
          refine List.mem_filter.mpr ⟨by rw [he]; exact List.mem_cons_self _ _, ?_⟩
          simp [hdom, hh]
        exact List.ne_nil_of_mem hmem
    cases hf : played.filter
        (fun pc => decide (some pc.card.suit = dominantSuit (some trump) played)) with
    | nil => exact absurd hf hfil
    | cons x xs =>
      have hsubl : (x :: xs).Sublist played := hf ▸ List.filter_sublist played
      have hpw : played.Pairwise (fun a b => a.card ≠ b.card) := by
        have h1 := List.pairwise_map.mp hnd
        exact h1
      have hpwf : (x :: xs).Pairwise (fun a b => a.card ≠ b.card) := hpw.sublist hsubl
      have hsuit : ∀ pc ∈ x :: xs,
          some pc.card.suit = dominantSuit (some trump) played := by
        intro pc hpc
        have hmem : pc ∈ played.filter
            (fun pc => decide (some pc.card.suit = dominantSuit (some trump) played)) := by
          rw [hf]
          exact hpc
        simpa using (List.mem_filter.mp hmem).2
      have hpwn : (x :: xs).Pairwise (fun a b => a.card.number ≠ b.card.number) := by
        refine List.Pairwise.imp_of_mem ?_ hpwf
        intro a b ha hb hcard hnum
        apply hcard
        apply Card.ext' _ _ hnum
        have hsa := hsuit a ha
        have hsb := hsuit b hb
        exact Option.some.inj (hsa.trans hsb.symm)
      refine ⟨pickBest x xs, ?_, ?_, ?_, ?_⟩
      · rw [pickWinner_eq, hf]
      · exact List.Sublist.mem (pickBest_mem x xs) hsubl
      · exact hsuit _ (pickBest_mem x xs)
      · intro pc hpc hpcsuit hpcne
        have hpcf : pc ∈ x :: xs := by
          have : pc ∈ played.filter
              (fun pc => decide (some pc.card.suit = dominantSuit (some trump) played)) :=
            List.mem_filter.mpr ⟨hpc, by simpa using hpcsuit⟩
          rw [hf] at this
          exact this
        rcases pickBest_max x xs hpwn pc hpcf with hb | hb
        · exact absurd (congrArg PlayedCard.card hb) hpcne
        · exact hb

theorem trick_resolution_correct_witness :
    trickC2 ≠ [] ∧
    (trickC2.map (fun pc => pc.card)).Nodup ∧
    (((∃ pc ∈ trickC2, pc.card.suit = Suit.a) →
        dominantSuit (some Suit.a) trickC2 = some Suit.a) ∧
     ((∀ pc ∈ trickC2, pc.card.suit ≠ Suit.a) →
        dominantSuit (some Suit.a) trickC2 = trickC2.head?.map (fun pc => pc.card.suit)) ∧
     ∃ w, pickWinner (dominantSuit (some Suit.a) trickC2) trickC2 = some w ∧
       w ∈ trickC2 ∧
       some w.card.suit = dominantSuit (some Suit.a) trickC2 ∧
       ∀ pc ∈ trickC2, some pc.card.suit = dominantSuit (some Suit.a) trickC2 →
         pc.card ≠ w.card → beats w.card pc.card) :=
  ⟨by decide, by decide, trick_resolution_correct Suit.a trickC2 (by decide) (by decide)⟩

/-! ## Claim C3 (amended): the actual phase-transition relation -/

/-- The transition relation the code actually guarantees: the claimed cycle
plus the two unguarded moves playing -> lobby (returnToLobby) and
ended -> playing (startGame). -/
def phaseStepOkAmended (p q : GamePhase) : Prop :=
  p = q ∨ (p = .lobby ∧ q = .playing) ∨ (p = .playing ∧ q = .ended) ∨
    (p = .ended ∧ q = .lobby) ∨ (p = .playing ∧ q = .lobby) ∨ (p = .ended ∧ q = .playing)

instance (p q : GamePhase) : Decidable (phaseStepOkAmended p q) := by
  unfold phaseStepOkAmended
  infer_instance

theorem joinLobby_phase (gs : GameState) (kl : List (String × Nat)) (now : Nat)
    (nm pid : String) (gs2 : GameState) (h : joinLobby gs kl now nm pid = .ok gs2) :
    gs2.gamePhase = gs.gamePhase := by
  unfold joinLobby at h
  cases hfb : findKickBlock (cleanupKicked kl now) nm now with
  | some r =>
    simp only [hfb] at h
    cases h
  | none =>
    simp only [hfb] at h
    repeat' first
      | split at h
      | simp only [] at h
    all_goals first
      | (cases h; rfl)
      | cases h

theorem startGame_phase (gs : GameState) (pid : String) (shuffled : List Card)
    (gs2 : GameState) (h : startGame gs pid shuffled = .ok gs2) :
    gs2.gamePhase = .playing := by
  unfold startGame at h
  repeat' first
    | split at h
    | simp only [] at h
  all_goals first
    | (cases h; rfl)
    | cases h

theorem playCard_phase (gs : GameState) (pid : String) (card : Card) (gs2 : GameState)
    (h : playCard gs pid card = .ok gs2) :
    gs.gamePhase = .playing ∧ (gs2.gamePhase = .playing ∨ gs2.gamePhase = .ended) := by
  unfold playCard at h
  by_cases hp : gs.gamePhase ≠ .playing
  · rw [if_pos hp] at h
    cases h
  · rw [if_neg hp] at h
    push_neg at hp
    refine ⟨hp, ?_⟩
    repeat' first
      | split at h
      | simp only [] at h
    all_goals first
      | (cases h; left; exact hp)
      | (cases h; right; rfl)
      | cases h

theorem kickPlayer_phase (gs : GameState) (kicked : List (String × Nat))
    (hostId targetId : String) (now : Nat) (gs2 : GameState) (kl2 : List (String × Nat))
    (h : kickPlayer gs kicked hostId targetId now = .ok (gs2, kl2)) :
    gs2.gamePhase = gs.gamePhase := by
  unfold kickPlayer at h
  repeat' first
    | split at h
    | simp only [] at h
  all_goals first
    | (cases h; rfl)
    | cases h

theorem leaveGame_phase (gs : GameState) (pid : String) (gs2 : GameState)
    (h : leaveGame gs pid = some gs2) : gs2.gamePhase = gs.gamePhase := by
  unfold leaveGame at h
  repeat' first
    | split at h
    | simp only [] at h
  all_goals first
    | (cases h; rfl)
    | cases h

/-- C3, amended: for every session state and public operation, if the session
survives, its phase either stays, or moves lobby -> playing (startGame),
playing -> ended (trick completion emptying a hand), ended -> lobby
(returnToLobby), or takes one of the two unguarded moves playing -> lobby
(returnToLobby without a phase guard) and ended -> playing (startGame
without a phase guard).  No operation resurrects an absent session. -/
theorem phase_transitions_amended (sys : Sys) (op : Op) (g' : GameState)
    (h : (step sys op).game = some g') :
    ∃ g, sys.game = some g ∧ phaseStepOkAmended g.gamePhase g'.gamePhase := by
  cases hg : sys.game with
  | none =>
    unfold step at h
    simp only [hg] at h
    cases h
  | some g =>
    refine ⟨g, rfl, ?_⟩
    unfold step at h
    rw [hg] at h
    cases op with
    | join nm pid now =>
      simp only [] at h
      cases hj : joinLobby g sys.kicked now nm pid with
      | ok gs2 =>
        simp only [hj] at h
        have h2 := Option.some.inj h
        rw [← h2]
        left
        exact (joinLobby_phase _ _ _ _ _ _ hj).symm
      | error e =>
        simp only [hj] at h
        have h2 := Option.some.inj h
        rw [← h2]
        left
        rfl
    | start pid shuffled =>
      simp only [] at h
      cases hs : startGame g pid shuffled with
      | ok gs2 =>
        simp only [hs] at h
        have h2 := Option.some.inj h
        rw [← h2, startGame_phase _ _ _ _ hs]
        cases hgp : g.gamePhase
        · right
          left
          exact ⟨rfl, rfl⟩
        · left
          rfl
        · right
          right
          right
          right
          right
          exact ⟨rfl, rfl⟩
      | error e =>
        simp only [hs] at h
        rw [hg] at h
        have h2 := Option.some.inj h
        rw [← h2]
        left
        rfl
    | play pid card =>
      simp only [] at h
      cases hp : playCard g pid card with
      | ok gs2 =>
        simp only [hp] at h
        have h2 := Option.some.inj h
        obtain ⟨hp1, hp2⟩ := playCard_phase _ _ _ _ hp
        rw [← h2, hp1]
        rcases hp2 with hh | hh
        · left
          exact hh.symm
        · right
          right
          left
          exact ⟨rfl, hh⟩
      | error e =>
        simp only [hp] at h
        rw [hg] at h
        have h2 := Option.some.inj h
        rw [← h2]
        left
        rfl
    | kick hostId targetId now =>
      simp only [] at h
      cases hk : kickPlayer g sys.kicked hostId targetId now with
      | ok r =>
        simp only [hk] at h
        have h2 := Option.some.inj h
        rw [← h2]
        left
        exact (kickPlayer_phase _ _ _ _ _ _ _ hk).symm
      | error e =>
        simp only [hk] at h
        rw [hg] at h
        have h2 := Option.some.inj h
        rw [← h2]
        left
        rfl
    | leave pid =>
      simp only [] at h
      cases hl : leaveGame g pid with
      | some gs2 =>
        rw [hl] at h
        have h2 := Option.some.inj h
        rw [← h2]
        left
        exact (leaveGame_phase _ _ _ hl).symm
      | none =>
        rw [hl] at h
        cases h
    | toLobby =>
      simp only [] at h
      have h2 := Option.some.inj h
      rw [← h2]
      cases hgp : g.gamePhase
      · left
        rfl
      · right
        right
        right
        right
        left
        exact ⟨rfl, rfl⟩
      · right
        right
        right
        left
        exact ⟨rfl, rfl⟩

/-- The session of sysStarted after the unguarded returnToLobby. -/
def gReturned : GameState :=
  (step sysStarted .toLobby).game.getD (createLobby "Alice" "g1" "LOBBY1" "A")

theorem phase_transitions_amended_witness :
    (step sysStarted .toLobby).game = some gReturned ∧
    ∃ g, sysStarted.game = some g ∧ phaseStepOkAmended g.gamePhase gReturned.gamePhase :=
  ⟨rfl, phase_transitions_amended sysStarted .toLobby gReturned rfl⟩

/-! ## Claim C4 (amended): immediate AI turns play a random card -/

/-- C4, amended: when the current player of a playing session is an AI with a
non-empty hand, setTurnTimeout resolves the turn immediately and
synchronously (aiImmediate decision, no timer), and the AI turn plays the
randomly drawn card hand[idx] — for every legal draw idx, not a
deterministically chosen card.  (hfind pins the AI as the first player with
its id, and hnc restricts to plays that do not complete the trick so the
played-card list is directly observable.) -/
theorem ai_immediate_random_play
    (gs : GameState) (p : Player) (h : List Card) (idx : Nat)
    (hphase : gs.gamePhase = .playing)
    (hcur : gs.players[gs.currentPlayerIndex]? = some p)
    (hai : p.isAI = true)
    (hhand : p.hand = some h)
    (hidx : idx < h.length)
    (hfind : gs.players.find? (fun q => decide (q.id = p.id)) = some p)
    (hnc : (gs.playedCards.getD []).length + 1 ≠ gs.players.length) :
    setTurnTimeoutDecision gs = .aiImmediate ∧
    ∃ gs', processAITurn gs idx = some gs' ∧
      gs'.playedCards = some (gs.playedCards.getD [] ++ [⟨p.id, h[idx]⟩]) := by
  have hne : h ≠ [] := by
    intro he
    subst he
    simp at hidx
  constructor
  · unfold setTurnTimeoutDecision
    rw [if_neg (by simp [hphase])]
    simp only [hcur, hhand]
    rw [if_neg hne, if_pos hai]
  · have hex : ∃ x, x ∈ h ∧ (fun c =>
        decide (c.number = h[idx].number ∧ c.suit = h[idx].suit)) x = true :=
      ⟨h[idx], List.getElem_mem hidx, by simp⟩
    obtain ⟨ci, hci⟩ : ∃ ci, h.findIdx? (fun c =>
        decide (c.number = h[idx].number ∧ c.suit = h[idx].suit)) = some ci :=
      ⟨_, List.findIdx?_eq_some_of_exists hex⟩
    have hplay := playCard_nonfinal gs p.id h[idx] p h ci hphase hfind hhand hci hnc
    refine ⟨{ gs with
        players := updateFirst gs.players p.id
          (fun q => { q with hand := some (h.eraseIdx ci) })
        playedCards := some (gs.playedCards.getD [] ++ [⟨p.id, h[idx]⟩])
        currentPlayerIndex := (gs.currentPlayerIndex + 1) % gs.players.length }, ?_, rfl⟩
    unfold processAITurn
    rw [if_neg (by simp [hphase])]
    simp only [hcur, hhand]
    rw [if_pos ⟨by simp [hai], hne⟩]
    rw [Nat.mod_eq_of_lt hidx]
    rw [List.getElem?_eq_getElem hidx]
    simp only [hplay]

theorem ai_immediate_random_play_witness :
    gsAI.gamePhase = .playing ∧
    (0 : Nat) < 3 ∧
    (setTurnTimeoutDecision gsAI = .aiImmediate ∧
     ∃ gs', processAITurn gsAI 0 = some gs' ∧
       gs'.playedCards = some (gsAI.playedCards.getD [] ++
         [⟨"X", ([⟨4, .c⟩, ⟨2, .d⟩, ⟨6, .a⟩] : List Card)[0]⟩])) := by
  refine ⟨by decide, by decide, ?_⟩
  exact ai_immediate_random_play gsAI
    { id := "X", name := "Xbot", isHost := false, isAI := true, score := 0,
      hand := some [⟨4, .c⟩, ⟨2, .d⟩, ⟨6, .a⟩] }
    [⟨4, .c⟩, ⟨2, .d⟩, ⟨6, .a⟩] 0
    (by decide) (by decide) (by decide) (by decide) (by decide) (by decide) (by decide)

/-! ## Claim C6 (amended): what the fired timer callback actually re-checks -/

/-- C6, amended: the fired timer callback plays no card when the session has
left the playing phase (first conjunct).  But its only other guard re-reads
whoever is NOW at currentPlayerIndex: when the session is still playing and
that player has a non-empty hand, the callback auto-plays the randomly drawn
card hand[r] of the CURRENT player (second conjunct) — it never compares with
the player the timer was armed for, so a stale firing plays for the newly
due player instead of being a no-op.  For an untouched turn the current
player is exactly the armed player, giving the auto-play half of the
original claim. -/
theorem timer_fire_guard (gs : GameState) (r : Nat) :
    (gs.gamePhase ≠ .playing → timerFire gs r = none) ∧
    (∀ (p : Player) (h : List Card) (hr : r < h.length),
       gs.gamePhase = .playing →
       gs.players[gs.currentPlayerIndex]? = some p →
       p.hand = some h →
       gs.players.find? (fun q => decide (q.id = p.id)) = some p →
       (gs.playedCards.getD []).length + 1 ≠ gs.players.length →
       ∃ gs', timerFire gs r = some gs' ∧
         gs'.playedCards = some (gs.playedCards.getD [] ++ [⟨p.id, h[r]⟩])) := by
  constructor
  · intro hnp
    unfold timerFire
    rw [if_pos hnp]
  · intro p h hr hphase hcur hhand hfind hnc
    have hne : h ≠ [] := by
      intro he
      subst he
      simp at hr
    have hex : ∃ x, x ∈ h ∧ (fun c =>
        decide (c.number = h[r].number ∧ c.suit = h[r].suit)) x = true :=
      ⟨h[r], List.getElem_mem hr, by simp⟩
    obtain ⟨ci, hci⟩ : ∃ ci, h.findIdx? (fun c =>
        decide (c.number = h[r].number ∧ c.suit = h[r].suit)) = some ci :=
      ⟨_, List.findIdx?_eq_some_of_exists hex⟩
    have hplay := playCard_nonfinal gs p.id h[r] p h ci hphase hfind hhand hci hnc
    refine ⟨{ gs with
        players := updateFirst gs.players p.id
          (fun q => { q with hand := some (h.eraseIdx ci) })
        playedCards := some (gs.playedCards.getD [] ++ [⟨p.id, h[r]⟩])
        currentPlayerIndex := (gs.currentPlayerIndex + 1) % gs.players.length }, ?_, rfl⟩
    unfold timerFire
    rw [if_neg (by simp [hphase])]
    simp only [hcur, hhand]
    rw [if_neg hne]
    rw [Nat.mod_eq_of_lt hr]
    rw [List.getElem?_eq_getElem hr]
    simp only [hplay]

/-- The same 3-player table as gsTimer, with the match already over. -/
def gsTimerEnded : GameState := { gsTimer with gamePhase := .ended }

theorem timer_fire_guard_witness :
    timerFire gsTimerEnded 0 = none ∧
    ∃ gs', timerFire gsTimer 0 = some gs' ∧
      gs'.playedCards = some (gsTimer.playedCards.getD [] ++
        [⟨"A", ([⟨5, .b⟩, ⟨6, .b⟩] : List Card)[0]⟩]) := by
  refine ⟨(timer_fire_guard gsTimerEnded 0).1 (by decide), ?_⟩
  exact (timer_fire_guard gsTimer 0).2
    { id := "A", name := "Alice", isHost := true, isAI := false, score := 0,
      hand := some [⟨5, .b⟩, ⟨6, .b⟩] }
    [⟨5, .b⟩, ⟨6, .b⟩] (by decide)
    (by decide) (by decide) (by decide) (by decide) (by decide)

/-! ## Claim C5 (amended): refill priority is seat order from index 0 -/

/-- Cards still needed by a player to reach the 3-card hand. -/
def needOf (p : Player) : Nat := 3 - (p.hand.getD []).length

theorem refillLoop_lengths (fuel : Nat) (h d : List Card)
    (hfuel : 3 - h.length ≤ fuel) (hle : h.length ≤ 3) :
    (refillLoop fuel h d).1.length = min 3 (h.length + d.length) ∧
    (refillLoop fuel h d).2.length = d.length - (3 - h.length) := by
  induction fuel generalizing h d with
  | zero =>
    unfold refillLoop
    refine ⟨?_, ?_⟩
    · show h.length = min 3 (h.length + d.length)
      omega
    · show d.length = d.length - (3 - h.length)
      omega
  | succ fuel ih =>
    unfold refillLoop
    by_cases hl3 : h.length < 3
    · rw [if_pos hl3]
      cases hlast : d.getLast? with
      | none =>
        rw [List.getLast?_eq_none_iff] at hlast
        subst hlast
        refine ⟨?_, ?_⟩
        · show h.length = min 3 (h.length + ([] : List Card).length)
          simp
          omega
        · show ([] : List Card).length = ([] : List Card).length - (3 - h.length)
          simp
      | some c =>
        have hd : d ≠ [] := by
          intro he
          subst he
          simp at hlast
        have hdpos : 0 < d.length := List.length_pos.mpr hd
        have hlen1 : (h ++ [c]).length = h.length + 1 := by simp
        obtain ⟨ih1, ih2⟩ := ih (h ++ [c]) d.dropLast (by omega) (by omega)
        rw [hlen1] at ih1 ih2
        have hdl : d.dropLast.length = d.length - 1 := by simp
        rw [hdl] at ih1 ih2
        refine ⟨?_, ?_⟩
        · rw [ih1]
          omega
        · rw [ih2]
          omega
    · rw [if_neg hl3]
      refine ⟨?_, ?_⟩
      · show h.length = min 3 (h.length + d.length)
        omega
      · show d.length = d.length - (3 - h.length)
        omega

theorem refillOne_lengths (h d : List Card) (hle : h.length ≤ 3) :
    (refillOne h d).1.length = min 3 (h.length + d.length) ∧
    (refillOne h d).2.length = d.length - (3 - h.length) :=
  refillLoop_lengths 3 h d (by omega) hle

/-- C5, amended: the refill after a trick serves the players in array order
starting at seat 0, regardless of the trick winner: seat i is topped up to 3
cards out of whatever the seats before it left, so its new hand size is
min 3 (oldSize + (deckSize - needs of seats 0..i-1)), and the deck shrinks by
the total served.  When the deck nearly empties it is seat 0 and the seats
after it that receive the remaining cards. -/
theorem refill_seat_order_from_zero (ps : List Player) (d : List Card)
    (hle : ∀ p ∈ ps, (p.hand.getD []).length ≤ 3) :
    (refillPlayers ps d).1.length = ps.length ∧
    (∀ i, (hi : i < ps.length) →
       ((refillPlayers ps d).1[i]?.map (fun p => (p.hand.getD []).length)) =
         some (min 3 ((((ps.get ⟨i, hi⟩).hand.getD []).length) +
           (d.length - (((ps.take i).map needOf).sum))))) ∧
    (refillPlayers ps d).2.length = d.length - (ps.map needOf).sum := by
  induction ps generalizing d with
  | nil =>
    refine ⟨rfl, ?_, by simp [refillPlayers]⟩
    intro i hi
    simp at hi
  | cons p rest ih =>
    have hp3 : (p.hand.getD []).length ≤ 3 := hle p (List.mem_cons_self _ _)
    obtain ⟨ro1, ro2⟩ := refillOne_lengths (p.hand.getD []) d hp3
    obtain ⟨ih1, ih2, ih3⟩ := ih (refillOne (p.hand.getD []) d).2
      (fun q hq => hle q (List.mem_cons_of_mem _ hq))
    have hcons : refillPlayers (p :: rest) d =
        ({ p with hand := some (refillOne (p.hand.getD []) d).1 } ::
          (refillPlayers rest (refillOne (p.hand.getD []) d).2).1,
         (refillPlayers rest (refillOne (p.hand.getD []) d).2).2) := rfl
    refine ⟨?_, ?_, ?_⟩
    · rw [hcons]
      simp [ih1]
    · intro i hi
      rw [hcons]
      cases i with
      | zero =>
        simp only [List.getElem?_cons_zero, Option.map_some']
        show some ((refillOne (p.hand.getD []) d).1.length) = _
        rw [ro1]
        simp
      | succ j =>
        have hj : j < rest.length := by simpa using hi
        simp only [List.getElem?_cons_succ]
        rw [ih2 j hj]
        rw [ro2]
        have hsum : (((p :: rest).take (j + 1)).map needOf).sum =
            needOf p + ((rest.take j).map needOf).sum := by
          simp [List.take_succ_cons]
        have hget : (p :: rest).get ⟨j + 1, hi⟩ = rest.get ⟨j, hj⟩ := rfl
        rw [hsum, hget]
        have hneed : needOf p = 3 - (p.hand.getD []).length := rfl
        congr 2
        omega
    · rw [hcons]
      show (refillPlayers rest (refillOne (p.hand.getD []) d).2).2.length = _
      rw [ih3, ro2]
      have hsum : ((p :: rest).map needOf).sum = needOf p + (rest.map needOf).sum := by simp
      rw [hsum]
      have hneed : needOf p = 3 - (p.hand.getD []).length := rfl
      omega

theorem refill_seat_order_from_zero_witness :
    (∀ p ∈ gsRefill.players, (p.hand.getD []).length ≤ 3) ∧
    ((refillPlayers gsRefill.players [⟨9, .c⟩]).1.length = gsRefill.players.length ∧
     (∀ i, (hi : i < gsRefill.players.length) →
        ((refillPlayers gsRefill.players [⟨9, .c⟩]).1[i]?.map
            (fun p => (p.hand.getD []).length)) =
          some (min 3 ((((gsRefill.players.get ⟨i, hi⟩).hand.getD []).length) +
            (([⟨9, .c⟩] : List Card).length -
              (((gsRefill.players.take i).map needOf).sum))))) ∧
     (refillPlayers gsRefill.players [⟨9, .c⟩]).2.length =
       ([⟨9, .c⟩] : List Card).length - (gsRefill.players.map needOf).sum) :=
  ⟨by decide, refill_seat_order_from_zero gsRefill.players [⟨9, .c⟩] (by decide)⟩

/-! ## Claim C7 (amended): the host invariant and the operations preserving it -/

/-- Exactly one host, and every host is Human. -/
def Hinv (gs : GameState) : Prop :=
  gs.players.countP (fun p => p.isHost) = 1 ∧
  ∀ p ∈ gs.players, p.isHost = true → p.isAI = false

theorem countP_eraseIdx_of_not (l : List Player) (i : Nat) (pred : Player → Bool) (x : Player)
    (hx : l[i]? = some x) (hpx : pred x = false) :
    (l.eraseIdx i).countP pred = l.countP pred := by
  induction l generalizing i with
  | nil => simp at hx
  | cons y rest ih =>
    cases i with
    | zero =>
      simp only [List.getElem?_cons_zero] at hx
      have hxy := Option.some.inj hx
      show rest.countP pred = (y :: rest).countP pred
      rw [List.countP_cons, hxy, hpx]
      simp
    | succ j =>
      simp only [List.getElem?_cons_succ] at hx
      show (y :: rest.eraseIdx j).countP pred = (y :: rest).countP pred
      rw [List.countP_cons, List.countP_cons, ih j hx]

theorem countP_ge_two (l : List Player) (pred : Player → Bool) (a b : Player)
    (ha : a ∈ l) (hb : b ∈ l) (hne : a ≠ b) (hpa : pred a = true) (hpb : pred b = true) :
    2 ≤ l.countP pred := by
  induction l with
  | nil => simp at ha
  | cons x rest ih =>
    rw [List.countP_cons]
    rcases List.mem_cons.mp ha with rfl | ha'
    · have hb' : b ∈ rest := by
        rcases List.mem_cons.mp hb with rfl | hb'
        · exact absurd rfl hne
        · exact hb'
      have hpos : 0 < rest.countP pred :=
        List.countP_pos_iff.mpr ⟨b, hb', hpb⟩
      rw [hpa]
      have h1 : (if true = true then 1 else 0) = 1 := rfl
      rw [h1]
      omega
    · rcases List.mem_cons.mp hb with rfl | hb'
      · have hpos : 0 < rest.countP pred :=
          List.countP_pos_iff.mpr ⟨a, ha', hpa⟩
        rw [hpb]
        have h1 : (if true = true then 1 else 0) = 1 := rfl
        rw [h1]
        omega
      · have := ih ha' hb'
        omega

theorem countP_updateFirstBy (ps : List Player) (pred : Player → Bool) (f : Player → Player)
    (predC : Player → Bool) (hf : ∀ p, predC (f p) = predC p) :
    (updateFirstBy ps pred f).countP predC = ps.countP predC := by
  induction ps with
  | nil => rfl
  | cons p rest ih =>
    unfold updateFirstBy
    by_cases hp : pred p = true
    · rw [if_pos hp, List.countP_cons, List.countP_cons, hf]
    · rw [if_neg hp, List.countP_cons, List.countP_cons, ih]

theorem map_updateFirstBy (ps : List Player) (pred : Player → Bool) (f : Player → Player)
    (g : Player → String) (hg : ∀ p, g (f p) = g p) :
    (updateFirstBy ps pred f).map g = ps.map g := by
  induction ps with
  | nil => rfl
  | cons p rest ih =>
    unfold updateFirstBy
    by_cases hp : pred p = true
    · rw [if_pos hp, List.map_cons, List.map_cons, hg]
    · rw [if_neg hp, List.map_cons, List.map_cons, ih]

theorem mem_updateFirstBy (ps : List Player) (pred : Player → Bool) (f : Player → Player)
    (q : Player) (hq : q ∈ updateFirstBy ps pred f) :
    q ∈ ps ∨ ∃ p0 ∈ ps, pred p0 = true ∧ q = f p0 := by
  induction ps with
  | nil => cases hq
  | cons p rest ih =>
    unfold updateFirstBy at hq
    by_cases hp : pred p = true
    · rw [if_pos hp] at hq
      rcases List.mem_cons.mp hq with rfl | hq'
      · exact Or.inr ⟨p, List.mem_cons_self _ _, hp, rfl⟩
      · exact Or.inl (List.mem_cons_of_mem _ hq')
    · rw [if_neg hp] at hq
      rcases List.mem_cons.mp hq with rfl | hq'
      · exact Or.inl (List.mem_cons_self _ _)
      · rcases ih hq' with h1 | ⟨p0, hp0, hpr, he⟩
        · exact Or.inl (List.mem_cons_of_mem _ h1)
        · exact Or.inr ⟨p0, List.mem_cons_of_mem _ hp0, hpr, he⟩

theorem countP_id_eq_one (ps : List Player) (hnd : (ps.map (fun p => p.id)).Nodup)
    (q : Player) (hq : q ∈ ps) : ps.countP (fun p => decide (p.id = q.id)) = 1 := by
  induction ps with
  | nil => simp at hq
  | cons r rest ih =>
    simp only [List.map_cons, List.nodup_cons] at hnd
    obtain ⟨hr, hnd'⟩ := hnd
    rw [List.countP_cons]
    rcases List.mem_cons.mp hq with rfl | hq'
    · have hz : rest.countP (fun p => decide (p.id = q.id)) = 0 := by
        rw [List.countP_eq_zero]
        intro p hp
        simp only [decide_eq_true_eq]
        intro hpq
        exact hr (List.mem_map.mpr ⟨p, hp, hpq⟩)
      rw [hz]
      simp
    · have hrq : ¬ r.id = q.id := by
        intro he
        exact hr (he ▸ List.mem_map.mpr ⟨q, hq', rfl⟩)
      rw [ih hnd' hq']
      simp [hrq]

theorem mem_of_head?_eq_some (l : List Player) (a : Player) (h : l.head? = some a) : a ∈ l := by
  cases l with
  | nil => cases h
  | cons x xs =>
    have h2 := Option.some.inj h
    rw [← h2]
    exact List.mem_cons_self _ _

theorem countP_assignNewHost (ps : List Player) (nh : String)
    (hnd : (ps.map (fun p => p.id)).Nodup) (q : Player) (hq : q ∈ ps) (hqid : q.id = nh) :
    (assignNewHost ps nh).countP (fun p => p.isHost) = 1 := by
  unfold assignNewHost
  rw [List.countP_map]
  have hpt : ((fun p => p.isHost) ∘ (fun (p : Player) =>
      if p.id = nh then { p with isHost := true } else { p with isHost := false })) =
      (fun (p : Player) => decide (p.id = nh)) := by
    funext p
    by_cases h0 : p.id = nh
    · simp only [Function.comp_apply, if_pos h0]
      simp [h0]
    · simp only [Function.comp_apply, if_neg h0]
      simp [h0]
  rw [hpt, ← hqid]
  exact countP_id_eq_one ps hnd q hq

theorem assignNewHost_hosts_human (ps : List Player) (nh : String)
    (hnd : (ps.map (fun p => p.id)).Nodup) (newHost : Player) (hmem : newHost ∈ ps)
    (hid : newHost.id = nh) (hhum : newHost.isAI = false) :
    ∀ q ∈ assignNewHost ps nh, q.isHost = true → q.isAI = false := by
  intro q hq hqh
  unfold assignNewHost at hq
  obtain ⟨p0, hp0, hfp0⟩ := List.mem_map.mp hq
  by_cases h0 : p0.id = nh
  · rw [if_pos h0] at hfp0
    have hp0nh : p0 = newHost :=
      List.inj_on_of_nodup_map hnd hp0 hmem (by rw [h0, hid])
    rw [← hfp0, hp0nh]
    exact hhum
  · rw [if_neg h0] at hfp0
    rw [← hfp0] at hqh
    cases hqh

/-- C7, amended: in a session with uuid-distinct player ids satisfying the
host invariant (exactly one host, hosts are Human), the invariant is
preserved by kickPlayer whenever the target is not the acting host, and by
leaveGame in every phase (host handoff to the first remaining Human; a
session in which no Human remains is deleted instead of surviving).
kickPlayer performs no host reassignment, so only the self-kick — the case
excluded here and exhibited by the counterexample — can break the
invariant. -/
theorem host_invariant_preserved (gs : GameState)
    (hids : (gs.players.map (fun p => p.id)).Nodup)
    (hinv : Hinv gs) :
    (∀ kicked hostId targetId now gs' kicked',
       targetId ≠ hostId →
       kickPlayer gs kicked hostId targetId now = .ok (gs', kicked') → Hinv gs') ∧
    (∀ pid gs', leaveGame gs pid = some gs' → Hinv gs') := by
  obtain ⟨hcount, hhum⟩ := hinv
  constructor
  · intro kicked hostId targetId now gs' kicked' hne hok
    unfold kickPlayer at hok
    cases hfh : gs.players.find? (fun p => decide (p.id = hostId)) with
    | none =>
      rw [hfh] at hok
      cases hok
    | some host =>
      simp only [hfh] at hok
      by_cases hhost : host.isHost = false
      · rw [if_pos hhost] at hok
        cases hok
      · rw [if_neg hhost] at hok
        cases hti : gs.players.findIdx? (fun p => decide (p.id = targetId)) with
        | none =>
          simp only [hti] at hok
          cases hok
        | some ti =>
          simp only [hti] at hok
          cases htg : gs.players[ti]? with
          | none =>
            simp only [htg] at hok
            cases hok
          | some target =>
            simp only [htg] at hok
            cases hok
            have hhostT : host.isHost = true := by
              cases hb : host.isHost
              · exact absurd hb hhost
              · rfl
            have hhostmem : host ∈ gs.players := List.mem_of_find?_eq_some hfh
            have hhostid : host.id = hostId := by
              have h2 := List.find?_some hfh
              simpa using h2
            obtain ⟨hlt, hpred, -⟩ := List.findIdx?_eq_some_iff_getElem.mp hti
            have htgeq : gs.players[ti] = target := by
              rw [List.getElem?_eq_getElem hlt] at htg
              exact Option.some.inj htg
            have htgmem : target ∈ gs.players := htgeq ▸ List.getElem_mem hlt
            have htgid : target.id = targetId := by
              rw [htgeq] at hpred
              simpa using hpred
            have htgnh : target.isHost = false := by
              cases hb : target.isHost
              · rfl
              · exfalso
                have hneq : host ≠ target := by
                  intro he
                  rw [he, htgid] at hhostid
                  exact hne hhostid
                have h2 := countP_ge_two gs.players (fun p => p.isHost) host target
                  hhostmem htgmem hneq hhostT hb
                omega
            constructor
            · show (gs.players.eraseIdx ti).countP (fun p => p.isHost) = 1
              rw [countP_eraseIdx_of_not gs.players ti _ target htg htgnh]
              exact hcount
            · intro q hq hqh
              exact hhum q (List.Sublist.mem hq (List.eraseIdx_sublist _ _)) hqh
  · intro pid gs' h
    unfold leaveGame at h
    cases hfind : gs.players.find? (fun p => decide (p.id = pid)) with
    | none =>
      rw [hfind] at h
      have h2 := Option.some.inj h
      rw [← h2]
      exact ⟨hcount, hhum⟩
    | some player =>
      simp only [hfind] at h
      have hpid : player.id = pid := by
        have h2 := List.find?_some hfind
        simpa using h2
      have hpmem : player ∈ gs.players := List.mem_of_find?_eq_some hfind
      by_cases hph : gs.gamePhase = .playing
      · rw [if_pos hph] at h
        have hids1 : ((updateFirst gs.players pid (fun p =>
            { p with isAI := true, name := p.name ++ "bot" })).map (fun p => p.id)).Nodup := by
          unfold updateFirst
          rw [map_updateFirstBy gs.players (fun q => decide (q.id = pid))
            (fun p => { p with isAI := true, name := p.name ++ "bot" })
            (fun p => p.id) (fun p => rfl)]
          exact hids
        have hfp1 : (updateFirst gs.players pid (fun p =>
            { p with isAI := true, name := p.name ++ "bot" })).find?
              (fun q => decide (q.id = pid)) =
            some { player with isAI := true, name := player.name ++ "bot" } := by
          unfold updateFirst
          exact find?_updateFirstBy gs.players _ _ player hfind (by simpa using hpid)
        have hfpmem : ({ player with isAI := true, name := player.name ++ "bot" } : Player) ∈
            updateFirst gs.players pid (fun p =>
              { p with isAI := true, name := p.name ++ "bot" }) :=
          List.mem_of_find?_eq_some hfp1
        by_cases hhostp : player.isHost = true
        · rw [if_pos hhostp] at h
          cases hhd : ((updateFirst gs.players pid (fun p =>
              { p with isAI := true, name := p.name ++ "bot" })).filter
                (fun p => decide (p.isAI = false ∧ p.id ≠ pid))).head? with
          | some newHost =>
            simp only [hhd] at h
            split at h
            · cases h
            · have h2 := Option.some.inj h
              rw [← h2]
              have hnhf : newHost ∈ (updateFirst gs.players pid (fun p =>
                  { p with isAI := true, name := p.name ++ "bot" })).filter
                    (fun p => decide (p.isAI = false ∧ p.id ≠ pid)) :=
                mem_of_head?_eq_some _ _ hhd
              obtain ⟨hnhmem, hnhpred⟩ := List.mem_filter.mp hnhf
              have hnhhum : newHost.isAI = false := by
                simp only [decide_eq_true_eq] at hnhpred
                exact hnhpred.1
              constructor
              · show (assignNewHost (updateFirst gs.players pid (fun p =>
                    { p with isAI := true, name := p.name ++ "bot" }))
                    newHost.id).countP (fun p => p.isHost) = 1
                exact countP_assignNewHost _ _ hids1 newHost hnhmem rfl
              · intro q hq hqh
                exact assignNewHost_hosts_human _ _ hids1 newHost hnhmem rfl hnhhum q hq hqh
          | none =>
            simp only [hhd] at h
            have hnil : (updateFirst gs.players pid (fun p =>
                { p with isAI := true, name := p.name ++ "bot" })).filter
                  (fun p => decide (p.isAI = false ∧ p.id ≠ pid)) = [] :=
              List.head?_eq_none_iff.mp hhd
            have hall : (updateFirst gs.players pid (fun p =>
                { p with isAI := true, name := p.name ++ "bot" })).all
                  (fun p => p.isAI) = true := by
              rw [List.all_eq_true]
              intro q hq
              cases hqa : q.isAI
              · exfalso
                have hq2 := List.filter_eq_nil_iff.mp hnil q hq
                simp only [decide_eq_true_eq] at hq2
                push_neg at hq2
                have hqid := hq2 hqa
                have hqe : q = { player with isAI := true, name := player.name ++ "bot" } := by
                  apply List.inj_on_of_nodup_map hids1 hq hfpmem
                  show q.id = player.id
                  rw [hqid]
                  exact hpid.symm
                rw [hqe] at hqa
                cases hqa
              · rfl
            split at h
            · cases h
            · rename_i hdel
              exact absurd (Or.inr hall) hdel
        · rw [if_neg hhostp] at h
          split at h
          · cases h
          · have h2 := Option.some.inj h
            rw [← h2]
            constructor
            · show (updateFirst gs.players pid (fun p =>
                  { p with isAI := true, name := p.name ++ "bot" })).countP
                    (fun p => p.isHost) = 1
              unfold updateFirst
              rw [countP_updateFirstBy gs.players (fun q => decide (q.id = pid))
                (fun p => { p with isAI := true, name := p.name ++ "bot" })
                (fun p => p.isHost) (fun p => rfl)]
              exact hcount
            · intro q hq hqh
              rcases mem_updateFirstBy _ _ _ q hq with hq1 | ⟨p0, hp0, hp0pred, hp0eq⟩
              · exact hhum q hq1 hqh
              · exfalso
                have hp0id : p0.id = pid := by simpa using hp0pred
                have hp0e : p0 = player := by
                  apply List.inj_on_of_nodup_map hids hp0 hpmem
                  rw [hp0id, hpid]
                have hqh2 : p0.isHost = true := by
                  rw [hp0eq] at hqh
                  exact hqh
                rw [hp0e] at hqh2
                exact hhostp hqh2
      · rw [if_neg hph] at h
        cases hti : gs.players.findIdx? (fun p => decide (p.id = pid)) with
        | none =>
          exfalso
          have h2 := List.findIdx?_eq_none_iff.mp hti player hpmem
          rw [decide_eq_false_iff_not] at h2
          exact h2 hpid
        | some i =>
          simp only [hti] at h
          obtain ⟨hilt, hipred, -⟩ := List.findIdx?_eq_some_iff_getElem.mp hti
          have hieq : gs.players[i] = player := by
            apply List.inj_on_of_nodup_map hids (List.getElem_mem hilt) hpmem
            have h3 : gs.players[i].id = pid := by simpa using hipred
            rw [h3, hpid]
          have hix : gs.players[i]? = some player := by
            rw [List.getElem?_eq_getElem hilt, hieq]
          have hids1 : ((gs.players.eraseIdx i).map (fun p => p.id)).Nodup :=
            List.Nodup.sublist (List.Sublist.map _ (List.eraseIdx_sublist _ _)) hids
          by_cases hhostp : player.isHost = true
          · rw [if_pos hhostp] at h
            cases hhd : ((gs.players.eraseIdx i).filter
                (fun p => decide (p.isAI = false))).head? with
            | some newHost =>
              simp only [hhd] at h
              split at h
              · cases h
              · have h2 := Option.some.inj h
                rw [← h2]
                have hnhf : newHost ∈ (gs.players.eraseIdx i).filter
                    (fun p => decide (p.isAI = false)) :=
                  mem_of_head?_eq_some _ _ hhd
                obtain ⟨hnhmem, hnhpred⟩ := List.mem_filter.mp hnhf
                have hnhhum : newHost.isAI = false := by
                  simpa using hnhpred
                constructor
                · show (assignNewHost (gs.players.eraseIdx i)
                      newHost.id).countP (fun p => p.isHost) = 1
                  exact countP_assignNewHost _ _ hids1 newHost hnhmem rfl
                · intro q hq hqh
                  exact assignNewHost_hosts_human _ _ hids1 newHost hnhmem rfl hnhhum q hq hqh
            | none =>
              simp only [hhd] at h
              have hnil : (gs.players.eraseIdx i).filter
                  (fun p => decide (p.isAI = false)) = [] :=
                List.head?_eq_none_iff.mp hhd
              have hall : (gs.players.eraseIdx i).all (fun p => p.isAI) = true := by
                rw [List.all_eq_true]
                intro q hq
                cases hqa : q.isAI
                · exfalso
                  have hq2 := List.filter_eq_nil_iff.mp hnil q hq
                  simp [hqa] at hq2
                · rfl
              split at h
              · cases h
              · rename_i hdel
                exact absurd (Or.inr hall) hdel
          · rw [if_neg hhostp] at h
            split at h
            · cases h
            · have h2 := Option.some.inj h
              rw [← h2]
              have hpnh : player.isHost = false := by
                cases hb : player.isHost
                · rfl
                · exact absurd hb hhostp
              constructor
              · show (gs.players.eraseIdx i).countP (fun p => p.isHost) = 1
                rw [countP_eraseIdx_of_not gs.players i _ player hix hpnh]
                exact hcount
              · intro q hq hqh
                exact hhum q (List.Sublist.mem hq (List.eraseIdx_sublist _ _)) hqh

theorem host_invariant_preserved_witness :
    ((gsLobbyAB.players.map (fun p => p.id)).Nodup ∧ Hinv gsLobbyAB) ∧
    ∃ gs', leaveGame gsLobbyAB "A" = some gs' ∧ Hinv gs' := by
  have hids : (gsLobbyAB.players.map (fun p => p.id)).Nodup := by decide
  have hinv : Hinv gsLobbyAB := by
    constructor
    · decide
    · decide
  refine ⟨⟨hids, hinv⟩, ?_⟩
  cases hl : leaveGame gsLobbyAB "A" with
  | none =>
    exfalso
    revert hl
    decide
  | some gs' =>
    exact ⟨gs', rfl, (host_invariant_preserved gsLobbyAB hids hinv).2 "A" gs' hl⟩

end Brisk
